import Mathlib

/-!
Verification of the OTS cantest host-side toolchain core, embedded from
the Python sources:
  - tools/lib/protocol.py  (CAN frame model, message registry, codec)
  - tools/can_monitor.py   (telemetry line parser)
  - tools/lib/device.py    (device session: open, reset, boot-log capture, read)

Conventions of the embedding:
  - Python ints are Nat (all values in the code are non-negative byte/ID values).
  - Python code that can raise (list indexing, int() conversion) is embedded
    in Except Unit; Except.error () stands for a raised exception
    (IndexError / ValueError).  Code that cannot raise is a plain function.
  - Floats appear in the sources only as wall-clock timestamps and sleep
    durations; time is modelled discretely in ticks of 10 ms (the polling
    interval time.sleep(0.01) used by every loop in device.py), so 100 ms = 10
    ticks is written where the source sleeps 0.1 s, 1.5 s = 150 ticks, etc.
  - Byte arrival is modelled by a schedule: a list of strings, entry t being
    the chunk found in the serial input buffer at poll tick t (empty string =
    in_waiting == 0 at that tick).
  - The optional CANFrame.timestamp field (a float, set by no claim-relevant
    code path and inspected by none) is omitted from the frame model.
-/

set_option maxRecDepth 10000

/-! ## Hex formatting helpers (Python format specs 02X / 03X) -/

/-- One uppercase hexadecimal digit, as Python hex formatting produces. -/
def hexDigitU (n : Nat) : Char :=
  if n < 10 then Char.ofNat (48 + n) else Char.ofNat (55 + n)

/-- Hex digits of n, least significant first (fuelled structural recursion;
the first argument only bounds the recursion depth). -/
def hexRevAux : Nat → Nat → List Char
  | 0, n => [hexDigitU n]
  | fl + 1, n =>
    if n < 16 then [hexDigitU n]
    else hexDigitU (n % 16) :: hexRevAux fl (n / 16)

/-- Hex digits of n, least significant first. -/
def hexRev (n : Nat) : List Char := hexRevAux n n

/-- Python format spec 0wX : uppercase hex, zero-padded to width w. -/
def hexPad (w : Nat) (n : Nat) : String :=
  let ds := (hexRev n).reverse
  String.mk (List.replicate (w - ds.length) '0' ++ ds)

/-! ## protocol.py : CAN frame model and message registry -/

/-- CANFrame dataclass from protocol.py (timestamp omitted, see header). -/
structure CANFrame where
  can_id : Nat
  dlc : Nat
  data : List Nat
deriving DecidableEq, Repr

/-- frame.data[i] in Python: raises IndexError when out of range. -/
def dataAt (f : CANFrame) (i : Nat) : Except Unit Nat :=
  match f.data.get? i with
  | some b => .ok b
  | none => .error ()

/-- ModuleInfo dataclass. -/
structure ModuleInfo where
  module_type : Nat
  version_major : Nat
  version_minor : Nat
  capabilities : Nat
  can_block_base : Nat
  node_id : Nat
deriving DecidableEq, Repr

/-- ModuleInfo.get_module_type_name: enum name, CUSTOM_0x.. or UNKNOWN_0x.. -/
def ModuleInfo.get_module_type_name (m : ModuleInfo) : String :=
  if m.module_type = 0x00 then "NONE"
  else if m.module_type = 0x01 then "AUDIO"
  else if m.module_type ≥ 0x80 then "CUSTOM_0x" ++ hexPad 2 m.module_type
  else "UNKNOWN_0x" ++ hexPad 2 m.module_type

/-- ModuleInfo.get_capabilities_list (capability bitfield names). -/
def ModuleInfo.get_capabilities_list (m : ModuleInfo) : List String :=
  (if m.capabilities &&& 1 ≠ 0 then ["STATUS"] else []) ++
  (if m.capabilities &&& 2 ≠ 0 then ["OTA"] else []) ++
  (if m.capabilities &&& 4 ≠ 0 then ["BATTERY"] else [])

/-- The dictionary built by ModuleInfo.to_dict. -/
structure ModuleInfoView where
  module_type : Nat
  module_type_name : String
  version : String
  version_major : Nat
  version_minor : Nat
  capabilities : Nat
  capabilities_list : List String
  can_block_base : String
  can_range : String
  node_id : Nat
deriving DecidableEq, Repr

/-- ModuleInfo.to_dict. -/
def ModuleInfo.to_dict (m : ModuleInfo) : ModuleInfoView :=
  { module_type := m.module_type
    module_type_name := m.get_module_type_name
    version := toString m.version_major ++ "." ++ toString m.version_minor
    version_major := m.version_major
    version_minor := m.version_minor
    capabilities := m.capabilities
    capabilities_list := m.get_capabilities_list
    can_block_base := "0x" ++ hexPad 2 m.can_block_base
    can_range := "0x" ++ hexPad 2 m.can_block_base ++ "0-0x" ++
      hexPad 2 m.can_block_base ++ "F"
    node_id := m.node_id }

/-- PlaySoundRequest dataclass. -/
structure PlaySoundRequest where
  sound_index : Nat
  flags : Nat
  volume : Nat
  priority : Nat
deriving DecidableEq, Repr

def PlaySoundRequest.is_loop (r : PlaySoundRequest) : Bool := r.flags &&& 0x01 ≠ 0

def PlaySoundRequest.is_interrupt (r : PlaySoundRequest) : Bool := r.flags &&& 0x02 ≠ 0

/-- The dictionary built by PlaySoundRequest.to_dict. -/
structure PlaySoundView where
  sound_index : Nat
  flags : Nat
  loop : Bool
  interrupt : Bool
  volume : Nat
  priority : Nat
deriving DecidableEq, Repr

def PlaySoundRequest.to_dict (r : PlaySoundRequest) : PlaySoundView :=
  { sound_index := r.sound_index, flags := r.flags, loop := r.is_loop,
    interrupt := r.is_interrupt, volume := r.volume, priority := r.priority }

/-- PlaySoundAck dataclass. -/
structure PlaySoundAck where
  sound_index : Nat
  status : Nat
  queue_id : Nat
deriving DecidableEq, Repr

def PlaySoundAck.is_success (a : PlaySoundAck) : Bool := a.status = 0x00

/-- PlaySoundAck.get_status_name (AudioStatusCode enum lookup). -/
def PlaySoundAck.get_status_name (a : PlaySoundAck) : String :=
  if a.status = 0x00 then "SUCCESS"
  else if a.status = 0x01 then "FILE_NOT_FOUND"
  else if a.status = 0x02 then "MIXER_FULL"
  else if a.status = 0x03 then "SD_ERROR"
  else if a.status = 0xFF then "UNKNOWN_ERROR"
  else "UNKNOWN_0x" ++ hexPad 2 a.status

/-- The dictionary built by PlaySoundAck.to_dict. -/
structure PlaySoundAckView where
  sound_index : Nat
  status : Nat
  status_name : String
  success : Bool
  queue_id : Option Nat
deriving DecidableEq, Repr

def PlaySoundAck.to_dict (a : PlaySoundAck) : PlaySoundAckView :=
  { sound_index := a.sound_index, status := a.status,
    status_name := a.get_status_name, success := a.is_success,
    queue_id := if a.is_success then some a.queue_id else none }

/-- StopSoundRequest dataclass; to_dict is just the queue_id field. -/
structure StopSoundRequest where
  queue_id : Nat
deriving DecidableEq, Repr

/-- StopSoundAck dataclass. -/
structure StopSoundAck where
  queue_id : Nat
  status : Nat
deriving DecidableEq, Repr

def StopSoundAck.is_success (a : StopSoundAck) : Bool := a.status = 0x00

/-- The dictionary built by StopSoundAck.to_dict. -/
structure StopSoundAckView where
  queue_id : Nat
  status : Nat
  success : Bool
deriving DecidableEq, Repr

def StopSoundAck.to_dict (a : StopSoundAck) : StopSoundAckView :=
  { queue_id := a.queue_id, status := a.status, success := a.is_success }

/-- SoundFinished dataclass. -/
structure SoundFinished where
  queue_id : Nat
  sound_index : Nat
  reason : Nat
deriving DecidableEq, Repr

/-- SoundFinished.get_reason_name (SoundFinishReason enum lookup). -/
def SoundFinished.get_reason_name (s : SoundFinished) : String :=
  if s.reason = 0x00 then "COMPLETED"
  else if s.reason = 0x01 then "STOPPED_BY_USER"
  else if s.reason = 0x02 then "PLAYBACK_ERROR"
  else "UNKNOWN_0x" ++ hexPad 2 s.reason

/-- The dictionary built by SoundFinished.to_dict. -/
structure SoundFinishedView where
  queue_id : Nat
  sound_index : Nat
  reason : Nat
  reason_name : String
deriving DecidableEq, Repr

def SoundFinished.to_dict (s : SoundFinished) : SoundFinishedView :=
  { queue_id := s.queue_id, sound_index := s.sound_index, reason := s.reason,
    reason_name := s.get_reason_name }

/-- The dictionary returned by decode_module_query. -/
structure ModuleQueryView where
  message_type : String
  magic : Nat
  valid : Bool
deriving DecidableEq, Repr

/-- The dictionary returned by decode_stop_all. -/
structure StopAllView where
  message_type : String
  valid : Bool
deriving DecidableEq, Repr

/-! ## protocol.py : per-kind decoders -/

/-- decode_module_query (0x411). -/
def decode_module_query (f : CANFrame) : Except Unit (Option ModuleQueryView) :=
  if f.can_id ≠ 0x411 ∨ f.dlc ≠ 8 then .ok none
  else do
    let b0 ← dataAt f 0
    if b0 ≠ 0xFF then .ok none
    else .ok (some { message_type := "MODULE_QUERY", magic := b0, valid := true })

/-- decode_module_announce (0x410). -/
def decode_module_announce (f : CANFrame) : Except Unit (Option ModuleInfo) :=
  if f.can_id ≠ 0x410 ∨ f.dlc ≠ 8 then .ok none
  else do
    let b0 ← dataAt f 0
    let b1 ← dataAt f 1
    let b2 ← dataAt f 2
    let b3 ← dataAt f 3
    let b4 ← dataAt f 4
    let b5 ← dataAt f 5
    .ok (some { module_type := b0, version_major := b1, version_minor := b2,
                capabilities := b3, can_block_base := b4, node_id := b5 })

/-- decode_play_sound (0x420). -/
def decode_play_sound (f : CANFrame) : Except Unit (Option PlaySoundRequest) :=
  if f.can_id ≠ 0x420 ∨ f.dlc ≠ 8 then .ok none
  else do
    let b0 ← dataAt f 0
    let b1 ← dataAt f 1
    let b2 ← dataAt f 2
    let b3 ← dataAt f 3
    .ok (some { sound_index := b0, flags := b1, volume := b2, priority := b3 })

/-- decode_play_sound_ack (0x423). -/
def decode_play_sound_ack (f : CANFrame) : Except Unit (Option PlaySoundAck) :=
  if f.can_id ≠ 0x423 ∨ f.dlc ≠ 8 then .ok none
  else do
    let b0 ← dataAt f 0
    let b1 ← dataAt f 1
    let b2 ← dataAt f 2
    .ok (some { sound_index := b0, status := b1, queue_id := b2 })

/-- decode_stop_sound (0x421). -/
def decode_stop_sound (f : CANFrame) : Except Unit (Option StopSoundRequest) :=
  if f.can_id ≠ 0x421 ∨ f.dlc ≠ 8 then .ok none
  else do
    let b0 ← dataAt f 0
    .ok (some { queue_id := b0 })

/-- decode_stop_sound_ack (0x424). -/
def decode_stop_sound_ack (f : CANFrame) : Except Unit (Option StopSoundAck) :=
  if f.can_id ≠ 0x424 ∨ f.dlc ≠ 8 then .ok none
  else do
    let b0 ← dataAt f 0
    let b1 ← dataAt f 1
    .ok (some { queue_id := b0, status := b1 })

/-- decode_stop_all (0x422). -/
def decode_stop_all (f : CANFrame) : Except Unit (Option StopAllView) :=
  if f.can_id ≠ 0x422 ∨ f.dlc ≠ 8 then .ok none
  else .ok (some { message_type := "STOP_ALL", valid := true })

/-- decode_sound_finished (0x425). -/
def decode_sound_finished (f : CANFrame) : Except Unit (Option SoundFinished) :=
  if f.can_id ≠ 0x425 ∨ f.dlc ≠ 8 then .ok none
  else do
    let b0 ← dataAt f 0
    let b1 ← dataAt f 1
    let b2 ← dataAt f 2
    .ok (some { queue_id := b0, sound_index := b1, reason := b2 })

/-! ## protocol.py : decode_frame -/

/-- The possible values of the decoded field of decode_frame's result
(each constructor carries the dictionary the corresponding branch builds). -/
inductive Decoded where
  | moduleQuery (v : ModuleQueryView)
  | moduleAnnounce (v : ModuleInfoView)
  | playSound (v : PlaySoundView)
  | playSoundAck (v : PlaySoundAckView)
  | stopSound (v : StopSoundRequest)
  | stopSoundAck (v : StopSoundAckView)
  | stopAll (v : StopAllView)
  | soundFinished (v : SoundFinishedView)
deriving DecidableEq, Repr

/-- The dictionary returned by decode_frame (raw is the frame itself; its
to_dict is pure formatting and cannot raise). -/
structure DecodeResult where
  raw : CANFrame
  decoded : Option Decoded
  message_type : String
deriving DecidableEq, Repr

/-- decode_frame from protocol.py: classify by CAN ID (chained conditionals,
in source order), then attempt payload decoding.  Errors of the per-kind
decoders (IndexError on short data) propagate. -/
def decode_frame (f : CANFrame) : Except Unit DecodeResult :=
  if f.can_id = 0x411 then do
    let q ← decode_module_query f
    .ok { raw := f, decoded := q.map .moduleQuery, message_type := "MODULE_QUERY" }
  else if f.can_id = 0x410 then do
    let m ← decode_module_announce f
    .ok { raw := f, decoded := m.map (fun i => .moduleAnnounce i.to_dict),
          message_type := "MODULE_ANNOUNCE" }
  else if f.can_id = 0x420 then do
    let p ← decode_play_sound f
    .ok { raw := f, decoded := p.map (fun r => .playSound r.to_dict),
          message_type := "PLAY_SOUND" }
  else if f.can_id = 0x423 then do
    let a ← decode_play_sound_ack f
    .ok { raw := f, decoded := a.map (fun r => .playSoundAck r.to_dict),
          message_type := "PLAY_SOUND_ACK" }
  else if f.can_id = 0x421 then do
    let s ← decode_stop_sound f
    .ok { raw := f, decoded := s.map .stopSound, message_type := "STOP_SOUND" }
  else if f.can_id = 0x424 then do
    let a ← decode_stop_sound_ack f
    .ok { raw := f, decoded := a.map (fun r => .stopSoundAck r.to_dict),
          message_type := "STOP_SOUND_ACK" }
  else if f.can_id = 0x422 then do
    let s ← decode_stop_all f
    .ok { raw := f, decoded := s.map .stopAll, message_type := "STOP_ALL" }
  else if f.can_id = 0x425 then do
    let s ← decode_sound_finished f
    .ok { raw := f, decoded := s.map (fun r => .soundFinished r.to_dict),
          message_type := "SOUND_FINISHED" }
  else
    .ok { raw := f, decoded := none, message_type := "UNKNOWN" }

/-! ## protocol.py : encoders, validators, get_message_name -/

/-- encode_module_query. -/
def encode_module_query : CANFrame :=
  { can_id := 0x411, dlc := 8, data := [0xFF, 0, 0, 0, 0, 0, 0, 0] }

/-- encode_play_sound. -/
def encode_play_sound (sound_index : Nat) (loop : Bool) (interrupt : Bool)
    (volume : Nat) (priority : Nat) : CANFrame :=
  let flags0 : Nat := 0
  let flags1 := if loop then flags0 ||| 0x01 else flags0
  let flags2 := if interrupt then flags1 ||| 0x02 else flags1
  { can_id := 0x420, dlc := 8,
    data := [sound_index, flags2, volume, priority, 0, 0, 0, 0] }

/-- encode_stop_sound. -/
def encode_stop_sound (queue_id : Nat) : CANFrame :=
  { can_id := 0x421, dlc := 8, data := [queue_id, 0, 0, 0, 0, 0, 0, 0] }

/-- encode_stop_all. -/
def encode_stop_all : CANFrame :=
  { can_id := 0x422, dlc := 8, data := [0, 0, 0, 0, 0, 0, 0, 0] }

def is_valid_queue_id (queue_id : Nat) : Bool := 1 ≤ queue_id ∧ queue_id ≤ 255

def is_valid_sound_index (sound_index : Nat) : Bool := sound_index ≤ 255

def is_valid_volume (volume : Nat) : Bool := volume ≤ 100

/-- The eight CAN IDs registered in the CANId enum. -/
def registeredIds : List Nat := [0x410, 0x411, 0x420, 0x421, 0x422, 0x423, 0x424, 0x425]

/-- get_message_name: CANId enum name, or UNKNOWN_0x formatted with 03X. -/
def get_message_name (can_id : Nat) : String :=
  if can_id = 0x410 then "MODULE_ANNOUNCE"
  else if can_id = 0x411 then "MODULE_QUERY"
  else if can_id = 0x420 then "PLAY_SOUND"
  else if can_id = 0x421 then "STOP_SOUND"
  else if can_id = 0x422 then "STOP_ALL"
  else if can_id = 0x423 then "PLAY_SOUND_ACK"
  else if can_id = 0x424 then "STOP_SOUND_ACK"
  else if can_id = 0x425 then "SOUND_FINISHED"
  else "UNKNOWN_0x" ++ hexPad 3 can_id

/-! ## can_monitor.py : telemetry line parser

parse_can_message applies the anchored regex
  (RX|TX):\s+ID=0x([0-9A-Fa-f]+)\s+DLC=(\d+)\s+RTR=(\d+)\s+EXT=(\d+)\s+DATA=\[([0-9A-Fa-f\s]+)\]
to the line; on no match it returns None, otherwise it converts the captured
groups with int(.., 16) / int(..) and str.split().  Every greedy element of
the pattern is followed by a character outside its class, so the regex is
equivalent to the maximal-munch matcher below.  Character classes are modelled
over the ASCII range (telemetry is ASCII). -/

/-- Python regex \s (ASCII range). -/
def isWSb (c : Char) : Bool :=
  c == ' ' || c == '\t' || c == '\n' || c == '\r' ||
  c == Char.ofNat 11 || c == Char.ofNat 12

/-- Python regex [0-9A-Fa-f]. -/
def isHexb (c : Char) : Bool :=
  c.isDigit || ('a' ≤ c && c ≤ 'f') || ('A' ≤ c && c ≤ 'F')

/-- Match a literal character sequence, returning the remainder. -/
def litTok : List Char → List Char → Option (List Char)
  | [], cs => some cs
  | _ :: _, [] => none
  | l :: ls, c :: cs => if c = l then litTok ls cs else none

/-- Greedy one-or-more match of a character class (maximal munch). -/
def plusClass (p : Char → Bool) (cs : List Char) : Option (List Char × List Char) :=
  if (cs.takeWhile p).isEmpty then none
  else some (cs.takeWhile p, cs.dropWhile p)

/-- The captured groups of the compact-dialect regex. -/
structure CompactGroups where
  direction : String
  idg : List Char
  dlcg : List Char
  rtrg : List Char
  extg : List Char
  datag : List Char

/-- The alternation (RX|TX) at the start of the pattern. -/
def matchDir (cs : List Char) : Option (String × List Char) :=
  match litTok ['R', 'X'] cs with
  | some r => some ("RX", r)
  | none =>
    match litTok ['T', 'X'] cs with
    | some r => some ("TX", r)
    | none => none

/-- The repeating element \s+ KEY CLASS+ of the pattern: mandatory whitespace,
a literal key, then a captured greedy class run. -/
def wsKeyClass (key : List Char) (p : Char → Bool) (r : List Char) :
    Option (List Char × List Char) :=
  match plusClass isWSb r with
  | none => none
  | some (_, r1) =>
    match litTok key r1 with
    | none => none
    | some r2 => plusClass p r2

/-- The full compact-dialect regex of parse_can_message (re.match semantics:
anchored at the start of the line, the tail of the line is unconstrained). -/
def matchCompact (cs : List Char) : Option CompactGroups :=
  match matchDir cs with
  | none => none
  | some (dir, r0) =>
  match litTok [':'] r0 with
  | none => none
  | some r1 =>
  match wsKeyClass "ID=0x".data isHexb r1 with
  | none => none
  | some (idg, r2) =>
  match wsKeyClass "DLC=".data Char.isDigit r2 with
  | none => none
  | some (dlcg, r3) =>
  match wsKeyClass "RTR=".data Char.isDigit r3 with
  | none => none
  | some (rtrg, r4) =>
  match wsKeyClass "EXT=".data Char.isDigit r4 with
  | none => none
  | some (extg, r5) =>
  match wsKeyClass "DATA=[".data (fun c => isHexb c || isWSb c) r5 with
  | none => none
  | some (datag, r6) =>
  match litTok [']'] r6 with
  | none => none
  | some _ =>
    some { direction := dir, idg := idg, dlcg := dlcg, rtrg := rtrg,
           extg := extg, datag := datag }

/-- Hexadecimal value of one character, as int(.., 16) accepts it. -/
def hexVal (c : Char) : Option Nat :=
  if c.isDigit then some (c.toNat - 48)
  else if 'a' ≤ c ∧ c ≤ 'f' then some (c.toNat - 87)
  else if 'A' ≤ c ∧ c ≤ 'F' then some (c.toNat - 55)
  else none

def intBase16Go (acc : Nat) : List Char → Except Unit Nat
  | [] => .ok acc
  | c :: cs =>
    match hexVal c with
    | some v => intBase16Go (16 * acc + v) cs
    | none => .error ()

/-- Python int(s, 16): ValueError (here .error) on an empty or non-hex string. -/
def intBase16 (cs : List Char) : Except Unit Nat :=
  if cs.isEmpty then .error () else intBase16Go 0 cs

def intBase10Go (acc : Nat) : List Char → Except Unit Nat
  | [] => .ok acc
  | c :: cs =>
    if c.isDigit then intBase10Go (10 * acc + (c.toNat - 48)) cs
    else .error ()

/-- Python int(s): ValueError (here .error) on an empty or non-digit string. -/
def intBase10 (cs : List Char) : Except Unit Nat :=
  if cs.isEmpty then .error () else intBase10Go 0 cs

/-- One step of Python str.split() (split on whitespace runs, drop empties),
implemented as a foldr; empty segments are filtered afterwards. -/
def splitWSAux (c : Char) (acc : List (List Char)) : List (List Char) :=
  if isWSb c then [] :: acc
  else
    match acc with
    | [] => [[c]]
    | t :: ts => (c :: t) :: ts

/-- Python data_hex.split(). -/
def splitWS (cs : List Char) : List (List Char) :=
  (cs.foldr splitWSAux []).filter (fun t => ¬ t.isEmpty)

/-- int(b, 16) for each token of the DATA group, left to right. -/
def mapHex : List (List Char) → Except Unit (List Nat)
  | [] => .ok []
  | t :: ts => do
    let n ← intBase16 t
    let ns ← mapHex ts
    .ok (n :: ns)

/-- The record returned by parse_can_message on success. -/
structure CanRecord where
  direction : String
  can_id : Nat
  dlc : Nat
  rtr : Bool
  extended : Bool
  data : List Nat
deriving DecidableEq, Repr

/-- parse_can_message from can_monitor.py.  .ok none is the None return
(regex did not match); .error () would be an uncaught exception from the
int conversions (proved unreachable below). -/
def parse_can_message (line : String) : Except Unit (Option CanRecord) :=
  match matchCompact line.data with
  | none => .ok none
  | some g => do
    let canId ← intBase16 g.idg
    let dlc ← intBase10 g.dlcg
    let rtr ← intBase10 g.rtrg
    let ext ← intBase10 g.extg
    let dataBytes ← mapHex (splitWS g.datag)
    .ok (some { direction := String.mk (g.direction.data.map Char.toLower), can_id := canId,
                dlc := dlc, rtr := rtr ≠ 0, extended := ext ≠ 0,
                data := dataBytes })

/-! ## device.py : boot-log line processing

The boot-capture loop splits its byte buffer at newlines, strips each line,
appends non-empty lines to boot_log, and stops on a readiness marker. -/

/-- Strip trailing whitespace (second half of Python str.strip()). -/
def rstripWS (cs : List Char) : List Char := (cs.reverse.dropWhile isWSb).reverse

/-- Python str.strip(): drop leading and trailing whitespace. -/
def stripAll (cs : List Char) : List Char := rstripWS (cs.dropWhile isWSb)

/-- line_buffer.split('\n', 1): the first complete line and the remainder,
or none when the buffer holds no newline. -/
def splitFirstNL : List Char → Option (List Char × List Char)
  | [] => none
  | c :: cs =>
    if c = '\n' then some ([], cs)
    else
      match splitFirstNL cs with
      | none => none
      | some (l, r) => some (c :: l, r)

theorem splitFirstNL_length : ∀ {b l r : List Char},
    splitFirstNL b = some (l, r) → r.length < b.length := by
  intro b
  induction b with
  | nil => intro l r h; simp [splitFirstNL] at h
  | cons c cs ih =>
    intro l r h
    simp only [splitFirstNL] at h
    split at h
    · cases h
      simp
    · cases hm : splitFirstNL cs with
      | none => rw [hm] at h; cases h
      | some p =>
        obtain ⟨l', r'⟩ := p
        rw [hm] at h
        cases h
        exact Nat.lt_trans (ih hm) (by simp)

/-- The readiness markers of _capture_boot_log (checked on the lowercased
stripped line, substring semantics). -/
def bootMarkers : List (List Char) :=
  ["ready".data, "[cantest]".data, "ready>".data, "command>".data,
   "audio module ready".data]

/-- Python substring test (needle in hay). -/
def containsSub (hay needle : List Char) : Bool :=
  hay.tails.any (fun t => needle.isPrefixOf t)

/-- The readiness test of _capture_boot_log on one stripped line. -/
def isMarkerLine (line : List Char) : Bool :=
  let low := line.map Char.toLower
  bootMarkers.any (fun m => containsSub low m)

/-- The inner while-loop of _capture_boot_log: consume every complete line of
the buffer, stripping it and appending it when non-empty, returning early
(flag true) when a marker line was just appended.  Returns the remaining
buffer, the grown log, and the marker flag. -/
def processBufAux : Nat → List Char → List String → List Char × List String × Bool
  | 0, buf, log => (buf, log, false)
  | fl + 1, buf, log =>
    match splitFirstNL buf with
    | none => (buf, log, false)
    | some (line, rest) =>
      if (stripAll line).isEmpty then processBufAux fl rest log
      else if isMarkerLine (stripAll line) then
        (rest, log ++ [String.mk (stripAll line)], true)
      else processBufAux fl rest (log ++ [String.mk (stripAll line)])

def processBuf (buf : List Char) (log : List String) : List Char × List String × Bool :=
  processBufAux buf.length buf log

/-! ## device.py : _capture_boot_log -/

/-- Why _capture_boot_log stopped. -/
inductive StopReason where
  | marker
  | idle
  | timeout
deriving DecidableEq, Repr

/-- Result of a boot-log capture run: the captured lines, the stop reason,
the tick at which the call returned, and the number of schedule entries
consumed before stopping. -/
structure CapResult where
  log : List String
  reason : StopReason
  tEnd : Nat
  nRead : Nat
deriving DecidableEq, Repr

/-- The chunk present in the serial input buffer at poll tick t. -/
def chunkAt (sched : List String) (t : Nat) : List Char := (sched.getD t "").data

/-- The polling loop of _capture_boot_log, one iteration per 10 ms tick:
stop when the absolute timeout has elapsed; otherwise read the pending chunk
(if any) and process complete lines, returning 200 ms (20 ticks) after a
marker line; break when no data arrived for more than 1.5 s (150 ticks).
In the source the idle test runs even right after a read, where it is
vacuous (last_data_time was just set); the branch order below is equivalent.
The loop guard time < start + timeout is carried as structural fuel: the
first argument is timeout - t, zero exactly when the guard fails. -/
def capGo (sched : List String) : Nat → Nat → Nat → List Char → List String → CapResult
  | 0, t, _, _, log => { log := log, reason := .timeout, tEnd := t, nRead := t }
  | remaining + 1, t, lastData, buf, log =>
    if (chunkAt sched t).isEmpty then
      if t - lastData > 150 then { log := log, reason := .idle, tEnd := t, nRead := t }
      else capGo sched remaining (t + 1) lastData buf log
    else
      if (processBuf (buf ++ chunkAt sched t) log).2.2 then
        { log := (processBuf (buf ++ chunkAt sched t) log).2.1, reason := .marker,
          tEnd := t + 20, nRead := t + 1 }
      else capGo sched remaining (t + 1) t
        (processBuf (buf ++ chunkAt sched t) log).1
        (processBuf (buf ++ chunkAt sched t) log).2.1

/-- _capture_boot_log, started with empty buffer and log at tick 0. -/
def capture (sched : List String) (timeout : Nat) : CapResult :=
  capGo sched timeout 0 0 [] []

/-! ## device.py : session state, open, reset, adaptive read -/

/-- The pyserial handle (only its open flag matters to the session model). -/
structure SerialHandle where
  is_open : Bool
deriving DecidableEq, Repr

/-- ESP32Device session state: the transport handle, the _is_open flag
(field openFlag) and the boot_log buffer. -/
structure ESP32Device where
  serial : Option SerialHandle
  openFlag : Bool
  boot_log : List String
deriving DecidableEq, Repr

/-- A freshly constructed session (serial = None, _is_open = False). -/
def ESP32Device.init : ESP32Device :=
  { serial := none, openFlag := false, boot_log := [] }

/-- The is_open property. -/
def ESP32Device.is_open (d : ESP32Device) : Bool :=
  d.openFlag && (match d.serial with | some s => s.is_open | none => false)

/-- Observable actions of reset on the transport, in emission order. -/
inductive SerialEv where
  | clearBootLog
  | flushInput
  | setRTS (b : Bool)
  | setDTR (b : Bool)
  | sleepMs (n : Nat)
  | captureLog (timeoutTicks : Nat)
deriving DecidableEq, Repr

/-- ESP32Device.reset: clear boot_log, flush input, then the three-phase
RTS/DTR sequence with 100 ms holds, then boot-log capture with absolute
timeout wait_time + 2.0 s (wait_time is in 10 ms ticks here) or a plain
wait.  Returns the new state, the success flag and the emitted trace. -/
def ESP32Device.reset (d : ESP32Device) (wait_time : Nat) (capture_log : Bool)
    (sched : List String) : ESP32Device × Bool × List SerialEv :=
  if ¬ d.is_open then (d, false, [])
  else
    let d1 := { d with boot_log := ([] : List String) }
    let pre : List SerialEv :=
      [.clearBootLog, .flushInput, .setRTS true, .setDTR false, .sleepMs 100,
       .setRTS false, .setDTR true, .sleepMs 100, .setDTR false]
    if capture_log then
      let r := capture sched (wait_time + 200)
      ({ d1 with boot_log := r.log }, true, pre ++ [.captureLog (wait_time + 200)])
    else
      (d1, true, pre ++ [.sleepMs (wait_time * 10)])

/-- ESP32Device.open (the name open is reserved in Lean).  The opened
argument is the outcome of the serial.Serial constructor: none stands for a
SerialException (device absent, permission denied), some h for a
successfully opened handle.  On failure the except-branch sets _is_open to
False and returns False; on success the handle is stored, _is_open set, and
either a reset-with-capture or a short settling delay plus input flush
follows (neither changes the lifecycle state). -/
def ESP32Device.openPort (d : ESP32Device) (capture_boot_log : Bool)
    (opened : Option SerialHandle) (sched : List String) (reset_wait : Nat) :
    ESP32Device × Bool :=
  match opened with
  | none => ({ d with openFlag := false }, false)
  | some s =>
    let d1 := { d with serial := some s, openFlag := true }
    if capture_boot_log then ((d1.reset reset_wait true sched).1, true)
    else (d1, true)

/-- The adaptive read loop of ESP32Device.read: accumulate pending chunks;
once the input is idle after at least one byte was received, return at once;
otherwise run until the timeout elapses.  Returns the data and the tick at
which the call returned.  As in capGo, the guard time < start + timeout is
carried as structural fuel timeout - t. -/
def readGo (sched : List String) : Nat → Nat → List Char → List Char × Nat
  | 0, t, acc => (acc, t)
  | remaining + 1, t, acc =>
    let chunk := chunkAt sched t
    if chunk.isEmpty then
      if acc.isEmpty then readGo sched remaining (t + 1) acc
      else (acc, t)
    else readGo sched remaining (t + 1) (acc ++ chunk)

/-- ESP32Device.read: raises IOError when the session is not open, otherwise
runs the adaptive loop from tick 0 with an empty accumulator. -/
def ESP32Device.read (d : ESP32Device) (sched : List String) (timeout : Nat) :
    Except Unit (List Char × Nat) :=
  if ¬ d.is_open then .error () else .ok (readGo sched timeout 0 [])

/-! ## Spec-side stream description used to characterise boot capture -/

def completeLinesAux : Nat → List Char → List (List Char)
  | 0, _ => []
  | fl + 1, cs =>
    match splitFirstNL cs with
    | none => []
    | some (l, r) => l :: completeLinesAux fl r

/-- All complete (newline-terminated) lines of a text, in order. -/
def completeLines (cs : List Char) : List (List Char) :=
  completeLinesAux cs.length cs

/-- Declarative description of what boot capture keeps from a list of raw
lines: strip each, drop empties, and truncate (inclusively) at the first
marker line; the flag records whether a marker line was reached. -/
def goodTrunc : List (List Char) → List String × Bool
  | [] => ([], false)
  | l :: ls =>
    if (stripAll l).isEmpty then goodTrunc ls
    else if isMarkerLine (stripAll l) then ([String.mk (stripAll l)], true)
    else (String.mk (stripAll l) :: (goodTrunc ls).1, (goodTrunc ls).2)

/-- The concatenation of the first n scheduled chunks. -/
def consumedText (sched : List String) (n : Nat) : List Char :=
  ((List.range n).map (chunkAt sched)).flatten

/-- A text that ends exactly at a line boundary. -/
def closedText (cs : List Char) : Prop := cs = [] ∨ ∃ p, cs = p ++ ['\n']

/-! ## Protocol lemmas -/

theorem ok_bind {α β : Type} (a : α) (k : α → Except Unit β) :
    (Except.ok a >>= k) = k a := rfl

theorem dataAt_isOk (f : CANFrame) (i : Nat) (h : i < f.data.length) :
    ∃ b, dataAt f i = .ok b := by
  unfold dataAt
  rw [List.get?_eq_get h]
  exact ⟨_, rfl⟩

theorem decode_module_query_isOk (f : CANFrame) (h : f.dlc = 8 → 6 ≤ f.data.length) :
    ∃ o, decode_module_query f = .ok o := by
  unfold decode_module_query
  by_cases hc : f.can_id ≠ 0x411 ∨ f.dlc ≠ 8
  · rw [if_pos hc]; exact ⟨none, rfl⟩
  · rw [if_neg hc]
    push_neg at hc
    obtain ⟨b0, e0⟩ := dataAt_isOk f 0 (by have := h hc.2; omega)
    simp only [e0, ok_bind]
    split
    · exact ⟨_, rfl⟩
    · exact ⟨_, rfl⟩

theorem decode_module_announce_isOk (f : CANFrame) (h : f.dlc = 8 → 6 ≤ f.data.length) :
    ∃ o, decode_module_announce f = .ok o := by
  unfold decode_module_announce
  by_cases hc : f.can_id ≠ 0x410 ∨ f.dlc ≠ 8
  · rw [if_pos hc]; exact ⟨none, rfl⟩
  · rw [if_neg hc]
    push_neg at hc
    have h6 := h hc.2
    obtain ⟨b0, e0⟩ := dataAt_isOk f 0 (by omega)
    obtain ⟨b1, e1⟩ := dataAt_isOk f 1 (by omega)
    obtain ⟨b2, e2⟩ := dataAt_isOk f 2 (by omega)
    obtain ⟨b3, e3⟩ := dataAt_isOk f 3 (by omega)
    obtain ⟨b4, e4⟩ := dataAt_isOk f 4 (by omega)
    obtain ⟨b5, e5⟩ := dataAt_isOk f 5 (by omega)
    simp only [e0, e1, e2, e3, e4, e5, ok_bind]
    exact ⟨_, rfl⟩

theorem decode_play_sound_isOk (f : CANFrame) (h : f.dlc = 8 → 6 ≤ f.data.length) :
    ∃ o, decode_play_sound f = .ok o := by
  unfold decode_play_sound
  by_cases hc : f.can_id ≠ 0x420 ∨ f.dlc ≠ 8
  · rw [if_pos hc]; exact ⟨none, rfl⟩
  · rw [if_neg hc]
    push_neg at hc
    have h6 := h hc.2
    obtain ⟨b0, e0⟩ := dataAt_isOk f 0 (by omega)
    obtain ⟨b1, e1⟩ := dataAt_isOk f 1 (by omega)
    obtain ⟨b2, e2⟩ := dataAt_isOk f 2 (by omega)
    obtain ⟨b3, e3⟩ := dataAt_isOk f 3 (by omega)
    simp only [e0, e1, e2, e3, ok_bind]
    exact ⟨_, rfl⟩

theorem decode_play_sound_ack_isOk (f : CANFrame) (h : f.dlc = 8 → 6 ≤ f.data.length) :
    ∃ o, decode_play_sound_ack f = .ok o := by
  unfold decode_play_sound_ack
  by_cases hc : f.can_id ≠ 0x423 ∨ f.dlc ≠ 8
  · rw [if_pos hc]; exact ⟨none, rfl⟩
  · rw [if_neg hc]
    push_neg at hc
    have h6 := h hc.2
    obtain ⟨b0, e0⟩ := dataAt_isOk f 0 (by omega)
    obtain ⟨b1, e1⟩ := dataAt_isOk f 1 (by omega)
    obtain ⟨b2, e2⟩ := dataAt_isOk f 2 (by omega)
    simp only [e0, e1, e2, ok_bind]
    exact ⟨_, rfl⟩

theorem decode_stop_sound_isOk (f : CANFrame) (h : f.dlc = 8 → 6 ≤ f.data.length) :
    ∃ o, decode_stop_sound f = .ok o := by
  unfold decode_stop_sound
  by_cases hc : f.can_id ≠ 0x421 ∨ f.dlc ≠ 8
  · rw [if_pos hc]; exact ⟨none, rfl⟩
  · rw [if_neg hc]
    push_neg at hc
    obtain ⟨b0, e0⟩ := dataAt_isOk f 0 (by have := h hc.2; omega)
    simp only [e0, ok_bind]
    exact ⟨_, rfl⟩

theorem decode_stop_sound_ack_isOk (f : CANFrame) (h : f.dlc = 8 → 6 ≤ f.data.length) :
    ∃ o, decode_stop_sound_ack f = .ok o := by
  unfold decode_stop_sound_ack
  by_cases hc : f.can_id ≠ 0x424 ∨ f.dlc ≠ 8
  · rw [if_pos hc]; exact ⟨none, rfl⟩
  · rw [if_neg hc]
    push_neg at hc
    have h6 := h hc.2
    obtain ⟨b0, e0⟩ := dataAt_isOk f 0 (by omega)
    obtain ⟨b1, e1⟩ := dataAt_isOk f 1 (by omega)
    simp only [e0, e1, ok_bind]
    exact ⟨_, rfl⟩

theorem decode_stop_all_isOk (f : CANFrame) :
    ∃ o, decode_stop_all f = .ok o := by
  unfold decode_stop_all
  split
  · exact ⟨_, rfl⟩
  · exact ⟨_, rfl⟩

theorem decode_sound_finished_isOk (f : CANFrame) (h : f.dlc = 8 → 6 ≤ f.data.length) :
    ∃ o, decode_sound_finished f = .ok o := by
  unfold decode_sound_finished
  by_cases hc : f.can_id ≠ 0x425 ∨ f.dlc ≠ 8
  · rw [if_pos hc]; exact ⟨none, rfl⟩
  · rw [if_neg hc]
    push_neg at hc
    have h6 := h hc.2
    obtain ⟨b0, e0⟩ := dataAt_isOk f 0 (by omega)
    obtain ⟨b1, e1⟩ := dataAt_isOk f 1 (by omega)
    obtain ⟨b2, e2⟩ := dataAt_isOk f 2 (by omega)
    simp only [e0, e1, e2, ok_bind]
    exact ⟨_, rfl⟩

theorem decode_frame_isOk (f : CANFrame) (h : f.dlc = 8 → 6 ≤ f.data.length) :
    ∃ r, decode_frame f = .ok r := by
  unfold decode_frame
  split_ifs
  · obtain ⟨o, ho⟩ := decode_module_query_isOk f h
    rw [ho, ok_bind]; exact ⟨_, rfl⟩
  · obtain ⟨o, ho⟩ := decode_module_announce_isOk f h
    rw [ho, ok_bind]; exact ⟨_, rfl⟩
  · obtain ⟨o, ho⟩ := decode_play_sound_isOk f h
    rw [ho, ok_bind]; exact ⟨_, rfl⟩
  · obtain ⟨o, ho⟩ := decode_play_sound_ack_isOk f h
    rw [ho, ok_bind]; exact ⟨_, rfl⟩
  · obtain ⟨o, ho⟩ := decode_stop_sound_isOk f h
    rw [ho, ok_bind]; exact ⟨_, rfl⟩
  · obtain ⟨o, ho⟩ := decode_stop_sound_ack_isOk f h
    rw [ho, ok_bind]; exact ⟨_, rfl⟩
  · obtain ⟨o, ho⟩ := decode_stop_all_isOk f
    rw [ho, ok_bind]; exact ⟨_, rfl⟩
  · obtain ⟨o, ho⟩ := decode_sound_finished_isOk f h
    rw [ho, ok_bind]; exact ⟨_, rfl⟩
  · exact ⟨_, rfl⟩

deriving instance DecidableEq for Except

/-- C10: under the frame invariant len(data) == dlc with dlc <= 8 (bytes in
range), decode_frame never raises; without it, a registered ID with dlc == 8
and short data makes decode_frame raise an IndexError. -/
theorem decode_frame_total_under_invariant (f : CANFrame)
    (hlen : f.data.length = f.dlc) (_hdlc : f.dlc ≤ 8)
    (_hbytes : ∀ b ∈ f.data, b ≤ 255) :
    (∃ r, decode_frame f = .ok r) ∧
    decode_frame { can_id := 0x420, dlc := 8, data := [] } = .error () := by
  constructor
  · exact decode_frame_isOk f (fun h8 => by omega)
  · decide

theorem decode_frame_total_witness :
    (∃ r, decode_frame { can_id := 0x410, dlc := 8, data := [1, 1, 0, 1, 66, 0, 0, 0] } = .ok r) ∧
    decode_frame { can_id := 0x420, dlc := 8, data := [] } = .error () :=
  decode_frame_total_under_invariant
    { can_id := 0x410, dlc := 8, data := [1, 1, 0, 1, 66, 0, 0, 0] }
    (by decide) (by decide) (by decide)

/-- C3: a registered CAN ID with dlc different from 8 still classifies to its
registered name (never the UNKNOWN fallback) while the payload stays null. -/
theorem dlc_gating (f : CANFrame) (hreg : f.can_id ∈ registeredIds)
    (hdlc : f.dlc ≠ 8) :
    decode_frame f =
      .ok { raw := f, decoded := none, message_type := get_message_name f.can_id } ∧
    get_message_name f.can_id ≠ "UNKNOWN" := by
  have hcases : f.can_id = 0x410 ∨ f.can_id = 0x411 ∨ f.can_id = 0x420 ∨
      f.can_id = 0x421 ∨ f.can_id = 0x422 ∨ f.can_id = 0x423 ∨
      f.can_id = 0x424 ∨ f.can_id = 0x425 := by
    simpa [registeredIds] using hreg
  obtain h|h|h|h|h|h|h|h := hcases <;>
    exact ⟨by simp [decode_frame, decode_module_query, decode_module_announce,
        decode_play_sound, decode_play_sound_ack, decode_stop_sound,
        decode_stop_sound_ack, decode_stop_all, decode_sound_finished,
        get_message_name, h, hdlc, ok_bind],
      by simp [get_message_name, h]⟩

theorem dlc_gating_witness :
    decode_frame { can_id := 0x420, dlc := 4, data := [1, 2, 3, 4] } =
      .ok { raw := { can_id := 0x420, dlc := 4, data := [1, 2, 3, 4] },
            decoded := none,
            message_type := get_message_name 0x420 } ∧
    get_message_name (0x420 : Nat) ≠ "UNKNOWN" :=
  dlc_gating { can_id := 0x420, dlc := 4, data := [1, 2, 3, 4] }
    (by decide) (by decide)

/-- C2 (counterexample): decode_frame on the unregistered ID 0x7FE reports
message_type "UNKNOWN", not "UNKNOWN_0x7FE" as the claim states. -/
theorem unknown_id_decode_counterexample :
    decode_frame { can_id := 0x7FE, dlc := 4, data := [1, 2, 3, 4] } =
      .ok { raw := { can_id := 0x7FE, dlc := 4, data := [1, 2, 3, 4] },
            decoded := none, message_type := "UNKNOWN" } ∧
    ("UNKNOWN" : String) ≠ "UNKNOWN_0x7FE" := by
  decide

/-- C2 (amended): for any frame whose ID is outside the registry decode_frame
returns message_type "UNKNOWN" with a null payload and never raises, for any
dlc and data; the formatted name UNKNOWN_0x.. (e.g. UNKNOWN_0x7FE) is what
the separate helper get_message_name produces for such an ID. -/
theorem unknown_id_stability (can_id dlc : Nat) (data : List Nat)
    (h : can_id ∉ registeredIds) :
    decode_frame { can_id := can_id, dlc := dlc, data := data } =
      .ok { raw := { can_id := can_id, dlc := dlc, data := data },
            decoded := none, message_type := "UNKNOWN" } ∧
    get_message_name can_id = "UNKNOWN_0x" ++ hexPad 3 can_id ∧
    get_message_name 0x7FE = "UNKNOWN_0x7FE" := by
  simp only [registeredIds, List.mem_cons, List.not_mem_nil, or_false,
    not_or] at h
  obtain ⟨h1, h2, h3, h4, h5, h6, h7, h8⟩ := h
  refine ⟨?_, ?_, by decide⟩
  · simp [decode_frame, h1, h2, h3, h4, h5, h6, h7, h8]
  · simp [get_message_name, h1, h2, h3, h4, h5, h6, h7, h8]

theorem unknown_id_stability_witness :
    decode_frame { can_id := 0x7FE, dlc := 0, data := [] } =
      .ok { raw := { can_id := 0x7FE, dlc := 0, data := [] },
            decoded := none, message_type := "UNKNOWN" } ∧
    get_message_name 0x7FE = "UNKNOWN_0x" ++ hexPad 3 0x7FE ∧
    get_message_name 0x7FE = "UNKNOWN_0x7FE" :=
  unknown_id_stability 0x7FE 0 [] (by decide)

/-- C1: round-trip for every kind that has an encoder, within documented
field ranges: decoding the encoded frame yields a non-null payload whose
logical fields equal the encoder inputs, with flag bits expanding back to
the same booleans. -/
theorem encode_decode_roundtrip (si vol pri q : Nat) (loop intr : Bool)
    (_hsi : si ≤ 255) (_hvol : vol ≤ 100) (_hpri : pri ≤ 255)
    (_hq1 : 1 ≤ q) (_hq2 : q ≤ 255) :
    (decode_frame encode_module_query =
      .ok { raw := encode_module_query,
            decoded := some (.moduleQuery
              { message_type := "MODULE_QUERY", magic := 0xFF, valid := true }),
            message_type := "MODULE_QUERY" }) ∧
    (∃ v : PlaySoundView,
      decode_frame (encode_play_sound si loop intr vol pri) =
        .ok { raw := encode_play_sound si loop intr vol pri,
              decoded := some (.playSound v), message_type := "PLAY_SOUND" } ∧
      v.sound_index = si ∧ v.loop = loop ∧ v.interrupt = intr ∧
      v.volume = vol ∧ v.priority = pri) ∧
    (decode_frame (encode_stop_sound q) =
      .ok { raw := encode_stop_sound q,
            decoded := some (.stopSound { queue_id := q }),
            message_type := "STOP_SOUND" }) ∧
    (decode_frame encode_stop_all =
      .ok { raw := encode_stop_all,
            decoded := some (.stopAll { message_type := "STOP_ALL", valid := true }),
            message_type := "STOP_ALL" }) := by
  refine ⟨by decide, ?_, ?_, by decide⟩
  · cases loop <;> cases intr
    · exact ⟨⟨si, 0, false, false, vol, pri⟩, by
        simp [encode_play_sound, decode_frame, decode_play_sound, dataAt,
          ok_bind, PlaySoundRequest.to_dict, PlaySoundRequest.is_loop,
          PlaySoundRequest.is_interrupt], rfl, rfl, rfl, rfl, rfl⟩
    · exact ⟨⟨si, 2, false, true, vol, pri⟩, by
        simp [encode_play_sound, decode_frame, decode_play_sound, dataAt,
          ok_bind, PlaySoundRequest.to_dict, PlaySoundRequest.is_loop,
          PlaySoundRequest.is_interrupt], rfl, rfl, rfl, rfl, rfl⟩
    · exact ⟨⟨si, 1, true, false, vol, pri⟩, by
        simp [encode_play_sound, decode_frame, decode_play_sound, dataAt,
          ok_bind, PlaySoundRequest.to_dict, PlaySoundRequest.is_loop,
          PlaySoundRequest.is_interrupt], rfl, rfl, rfl, rfl, rfl⟩
    · exact ⟨⟨si, 3, true, true, vol, pri⟩, by
        simp [encode_play_sound, decode_frame, decode_play_sound, dataAt,
          ok_bind, PlaySoundRequest.to_dict, PlaySoundRequest.is_loop,
          PlaySoundRequest.is_interrupt], rfl, rfl, rfl, rfl, rfl⟩
  · simp [encode_stop_sound, decode_frame, decode_stop_sound, dataAt, ok_bind]

theorem encode_decode_roundtrip_witness :
    (∃ v : PlaySoundView,
      decode_frame (encode_play_sound 5 true false 80 7) =
        .ok { raw := encode_play_sound 5 true false 80 7,
              decoded := some (.playSound v), message_type := "PLAY_SOUND" } ∧
      v.sound_index = 5 ∧ v.loop = true ∧ v.interrupt = false ∧
      v.volume = 80 ∧ v.priority = 7) ∧
    decode_frame (encode_stop_sound 3) =
      .ok { raw := encode_stop_sound 3,
            decoded := some (.stopSound { queue_id := 3 }),
            message_type := "STOP_SOUND" } :=
  ⟨(encode_decode_roundtrip 5 80 7 3 true false (by decide) (by decide)
      (by decide) (by decide) (by decide)).2.1,
   (encode_decode_roundtrip 5 80 7 3 true false (by decide) (by decide)
      (by decide) (by decide) (by decide)).2.2.1⟩

/-! ## Parser lemmas: the captured groups are well-formed -/

theorem mem_takeWhile_sat {p : Char → Bool} :
    ∀ {l : List Char} {a : Char}, a ∈ l.takeWhile p → p a := by
  intro l
  induction l with
  | nil => intro a h; simp [List.takeWhile] at h
  | cons c cs ih =>
    intro a h
    rw [List.takeWhile] at h
    by_cases hc : p c
    · rw [hc] at h
      rcases List.mem_cons.mp h with h1 | h1
      · rwa [h1]
      · exact ih h1
    · rw [Bool.of_not_eq_true hc] at h
      simp at h

theorem plusClass_spec {p : Char → Bool} {cs t r : List Char}
    (h : plusClass p cs = some (t, r)) : t ≠ [] ∧ ∀ c ∈ t, p c := by
  unfold plusClass at h
  split at h
  · cases h
  · rename_i hne
    cases h
    refine ⟨?_, ?_⟩
    · intro he
      rw [he] at hne
      simp at hne
    · intro c hc
      exact mem_takeWhile_sat hc

theorem wsKeyClass_spec {key : List Char} {p : Char → Bool} {r g rest : List Char}
    (h : wsKeyClass key p r = some (g, rest)) : g ≠ [] ∧ ∀ c ∈ g, p c := by
  unfold wsKeyClass at h
  cases h1 : plusClass isWSb r with
  | none => rw [h1] at h; cases h
  | some pr =>
    rw [h1] at h
    obtain ⟨a, r1⟩ := pr
    cases h2 : litTok key r1 with
    | none => simp [h2] at h
    | some r2 =>
      simp only [h2] at h
      exact plusClass_spec h

theorem matchCompact_spec {cs : List Char} {g : CompactGroups}
    (h : matchCompact cs = some g) :
    (g.idg ≠ [] ∧ ∀ c ∈ g.idg, isHexb c) ∧
    (g.dlcg ≠ [] ∧ ∀ c ∈ g.dlcg, c.isDigit) ∧
    (g.rtrg ≠ [] ∧ ∀ c ∈ g.rtrg, c.isDigit) ∧
    (g.extg ≠ [] ∧ ∀ c ∈ g.extg, c.isDigit) ∧
    (∀ c ∈ g.datag, isHexb c ∨ isWSb c) := by
  unfold matchCompact at h
  cases h0 : matchDir cs with
  | none => rw [h0] at h; cases h
  | some p0 =>
    rw [h0] at h
    obtain ⟨dir, r0⟩ := p0
    cases h1 : litTok [':'] r0 with
    | none => simp [h1] at h
    | some r1 =>
      simp only [h1] at h
      cases h2 : wsKeyClass "ID=0x".data isHexb r1 with
      | none => simp [h2] at h
      | some p2 =>
        simp only [h2] at h
        obtain ⟨idg, r2⟩ := p2
        cases h3 : wsKeyClass "DLC=".data Char.isDigit r2 with
        | none => simp [h3] at h
        | some p3 =>
          simp only [h3] at h
          obtain ⟨dlcg, r3⟩ := p3
          cases h4 : wsKeyClass "RTR=".data Char.isDigit r3 with
          | none => simp [h4] at h
          | some p4 =>
            simp only [h4] at h
            obtain ⟨rtrg, r4⟩ := p4
            cases h5 : wsKeyClass "EXT=".data Char.isDigit r4 with
            | none => simp [h5] at h
            | some p5 =>
              simp only [h5] at h
              obtain ⟨extg, r5⟩ := p5
              cases h6 : wsKeyClass "DATA=[".data (fun c => isHexb c || isWSb c) r5 with
              | none => simp [h6] at h
              | some p6 =>
                simp only [h6] at h
                obtain ⟨datag, r6⟩ := p6
                cases h7 : litTok [']'] r6 with
                | none => simp [h7] at h
                | some r7 =>
                  simp only [h7] at h
                  cases h
                  refine ⟨wsKeyClass_spec h2, wsKeyClass_spec h3,
                          wsKeyClass_spec h4, wsKeyClass_spec h5, ?_⟩
                  intro c hc
                  have := (wsKeyClass_spec h6).2 c hc
                  simpa using this

/-! ## Parser lemmas: the numeric conversions cannot fail on matched groups -/

theorem hexVal_isSome {c : Char} (h : isHexb c) : ∃ v, hexVal c = some v := by
  unfold isHexb at h
  unfold hexVal
  rcases Bool.or_eq_true_iff.mp h with h1 | h1
  · rcases Bool.or_eq_true_iff.mp h1 with h2 | h2
    · rw [if_pos h2]; exact ⟨_, rfl⟩
    · by_cases hd : c.isDigit
      · rw [if_pos hd]; exact ⟨_, rfl⟩
      · rw [if_neg hd, if_pos (by simpa using h2)]; exact ⟨_, rfl⟩
  · by_cases hd : c.isDigit
    · rw [if_pos hd]; exact ⟨_, rfl⟩
    · rw [if_neg hd]
      by_cases hl : 'a' ≤ c ∧ c ≤ 'f'
      · rw [if_pos hl]; exact ⟨_, rfl⟩
      · rw [if_neg hl, if_pos (by simpa using h1)]; exact ⟨_, rfl⟩

theorem intBase16Go_ok {cs : List Char} (h : ∀ c ∈ cs, isHexb c) :
    ∀ acc, ∃ n, intBase16Go acc cs = .ok n := by
  induction cs with
  | nil => intro acc; exact ⟨acc, rfl⟩
  | cons c cs ih =>
    intro acc
    obtain ⟨v, hv⟩ := hexVal_isSome (h c (List.mem_cons_self c cs))
    unfold intBase16Go
    rw [hv]
    exact ih (fun x hx => h x (List.mem_cons_of_mem c hx)) (16 * acc + v)

theorem intBase16_ok {cs : List Char} (hne : cs ≠ [])
    (h : ∀ c ∈ cs, isHexb c) : ∃ n, intBase16 cs = .ok n := by
  unfold intBase16
  rw [if_neg (by simpa using hne)]
  exact intBase16Go_ok h 0

theorem intBase10Go_ok {cs : List Char} (h : ∀ c ∈ cs, c.isDigit) :
    ∀ acc, ∃ n, intBase10Go acc cs = .ok n := by
  induction cs with
  | nil => intro acc; exact ⟨acc, rfl⟩
  | cons c cs ih =>
    intro acc
    unfold intBase10Go
    rw [if_pos (h c (List.mem_cons_self c cs))]
    exact ih (fun x hx => h x (List.mem_cons_of_mem c hx)) _

theorem intBase10_ok {cs : List Char} (hne : cs ≠ [])
    (h : ∀ c ∈ cs, c.isDigit) : ∃ n, intBase10 cs = .ok n := by
  unfold intBase10
  rw [if_neg (by simpa using hne)]
  exact intBase10Go_ok h 0

theorem foldr_splitWSAux_chars :
    ∀ (cs : List Char) (t : List Char) (c : Char),
      t ∈ cs.foldr splitWSAux [] → c ∈ t → c ∈ cs ∧ isWSb c = false := by
  intro cs
  induction cs with
  | nil => intro t c ht _; simp at ht
  | cons a cs ih =>
    intro t c ht hc
    rw [List.foldr_cons] at ht
    generalize hacc : cs.foldr splitWSAux [] = acc at ht
    rw [hacc] at ih
    unfold splitWSAux at ht
    by_cases ha : isWSb a
    · rw [if_pos ha] at ht
      rcases List.mem_cons.mp ht with h1 | h1
      · rw [h1] at hc; simp at hc
      · have := ih t c h1 hc
        exact ⟨List.mem_cons_of_mem a this.1, this.2⟩
    · rw [if_neg ha] at ht
      cases acc with
      | nil =>
        simp at ht
        rw [ht] at hc
        simp at hc
        rw [hc]
        exact ⟨List.mem_cons_self a cs, by simpa using ha⟩
      | cons t0 ts =>
        rcases List.mem_cons.mp ht with h1 | h1
        · rw [h1] at hc
          rcases List.mem_cons.mp hc with h2 | h2
          · rw [h2]
            exact ⟨List.mem_cons_self a cs, by simpa using ha⟩
          · have := ih t0 c (List.mem_cons_self t0 ts) h2
            exact ⟨List.mem_cons_of_mem a this.1, this.2⟩
        · have := ih t c (List.mem_cons_of_mem t0 h1) hc
          exact ⟨List.mem_cons_of_mem a this.1, this.2⟩

theorem splitWS_spec {cs : List Char} (h : ∀ c ∈ cs, isHexb c ∨ isWSb c) :
    ∀ t ∈ splitWS cs, t ≠ [] ∧ ∀ c ∈ t, isHexb c := by
  intro t ht
  unfold splitWS at ht
  have hmem := List.mem_filter.mp ht
  refine ⟨by simpa using hmem.2, ?_⟩
  intro c hc
  have := foldr_splitWSAux_chars cs t c hmem.1 hc
  rcases h c this.1 with h1 | h1
  · exact h1
  · rw [this.2] at h1; cases h1

theorem mapHex_ok {ts : List (List Char)}
    (h : ∀ t ∈ ts, t ≠ [] ∧ ∀ c ∈ t, isHexb c) :
    ∃ l, mapHex ts = .ok l := by
  induction ts with
  | nil => exact ⟨[], rfl⟩
  | cons t ts ih =>
    have ht := h t (List.mem_cons_self t ts)
    obtain ⟨n, hn⟩ := intBase16_ok ht.1 ht.2
    obtain ⟨l, hl⟩ := ih (fun x hx => h x (List.mem_cons_of_mem t hx))
    unfold mapHex
    rw [hn, ok_bind, hl, ok_bind]
    exact ⟨_, rfl⟩

/-- parse_can_message never raises: the matched groups are never empty and
contain only characters their int conversions accept. -/
theorem parse_total (line : String) : ∃ o, parse_can_message line = .ok o := by
  unfold parse_can_message
  cases hm : matchCompact line.data with
  | none => exact ⟨none, rfl⟩
  | some g =>
    obtain ⟨hid, hdlc, hrtr, hext, hdata⟩ := matchCompact_spec hm
    obtain ⟨n1, e1⟩ := intBase16_ok hid.1 hid.2
    obtain ⟨n2, e2⟩ := intBase10_ok hdlc.1 hdlc.2
    obtain ⟨n3, e3⟩ := intBase10_ok hrtr.1 hrtr.2
    obtain ⟨n4, e4⟩ := intBase10_ok hext.1 hext.2
    obtain ⟨l, el⟩ := mapHex_ok (splitWS_spec hdata)
    simp only [e1, e2, e3, e4, el, ok_bind]
    exact ⟨_, rfl⟩

/-- C5: parse_can_message is total and pure: for every input line it either
returns a parsed record or None and never raises (int conversions on matched
groups cannot fail); in particular the line "garbage no id here" returns
None.  Purity/statelessness is by construction: the function reads only its
argument. -/
theorem parse_can_message_total :
    (∀ line : String, ∃ o, parse_can_message line = .ok o) ∧
    parse_can_message "garbage no id here" = .ok none :=
  ⟨parse_total, by decide⟩

/-- C4 (counterexample): a line declaring DLC=8 but carrying one data byte is
accepted by parse_can_message with data length 1 different from dlc 8, so the
parser does not reject declared-DLC/data-length mismatches. -/
theorem parser_length_mismatch_counterexample :
    ¬ (∀ rec : CanRecord,
        parse_can_message "RX: ID=0x410 DLC=8 RTR=0 EXT=0 DATA=[01]" =
          .ok (some rec) →
        rec.data.length = rec.dlc) := by
  intro h
  exact absurd
    (h { direction := "rx", can_id := 0x410, dlc := 8, rtr := false,
         extended := false, data := [1] } (by decide))
    (by decide)

/-- C4 (amended): parse_can_message records the declared DLC and the parsed
data bytes independently and never compares them: the data list holds one
integer per hex token of the DATA group, and a line whose declared DLC
disagrees with the number of data bytes present is returned as parsed, not
rejected and not truncated (shown in both directions: DLC=8 with one byte,
DLC=0 with two bytes). -/
theorem parser_no_length_check :
    parse_can_message "RX: ID=0x410 DLC=8 RTR=0 EXT=0 DATA=[01]" =
      .ok (some { direction := "rx", can_id := 0x410, dlc := 8, rtr := false,
                  extended := false, data := [1] }) ∧
    parse_can_message "TX: ID=0x420 DLC=0 RTR=0 EXT=0 DATA=[AA BB]" =
      .ok (some { direction := "tx", can_id := 0x420, dlc := 0, rtr := false,
                  extended := false, data := [0xAA, 0xBB] }) := by
  decide

/-! ## Device session: open and reset -/

/-- The RTS/DTR line transitions of a trace, in order. -/
def lineTransitions (evs : List SerialEv) : List SerialEv :=
  evs.filter (fun e => match e with
    | .setRTS _ => true
    | .setDTR _ => true
    | _ => false)

/-- C6: when the transport constructor fails, open returns False, the session
stays CLOSED (is_open false) and no exception escapes (the embedding is a
total function); when it succeeds, open returns True and the session is OPEN,
with or without boot-log capture. -/
theorem open_failure_semantics (d : ESP32Device) (cap : Bool)
    (sched : List String) (w : Nat) :
    ((d.openPort cap none sched w).2 = false ∧
     (d.openPort cap none sched w).1.is_open = false) ∧
    ((d.openPort cap (some { is_open := true }) sched w).2 = true ∧
     (d.openPort cap (some { is_open := true }) sched w).1.is_open = true) := by
  refine ⟨⟨rfl, by simp [ESP32Device.openPort, ESP32Device.is_open]⟩, ?_, ?_⟩ <;>
    cases cap <;>
      simp [ESP32Device.openPort, ESP32Device.reset, ESP32Device.is_open]

/-- C8: a successful reset of an open session emits exactly: clear boot_log,
flush input, phase 1 (RTS=1, DTR=0, hold 100 ms), phase 2 (RTS=0, DTR=1,
hold 100 ms), phase 3 (DTR=0), then the capture (timeout wait+2 s) or plain
wait; the RTS/DTR transitions of the trace are exactly those five, in that
order. -/
theorem reset_sequence_order (d : ESP32Device) (w : Nat) (cap : Bool)
    (sched : List String) (hopen : d.is_open = true) :
    (d.reset w cap sched).2.1 = true ∧
    (d.reset w cap sched).2.2 =
      [SerialEv.clearBootLog, .flushInput, .setRTS true, .setDTR false,
       .sleepMs 100, .setRTS false, .setDTR true, .sleepMs 100, .setDTR false] ++
      (if cap then [SerialEv.captureLog (w + 200)] else [SerialEv.sleepMs (w * 10)]) ∧
    (d.reset w cap sched).1.boot_log =
      (if cap then (capture sched (w + 200)).log else []) ∧
    lineTransitions (d.reset w cap sched).2.2 =
      [SerialEv.setRTS true, .setDTR false, .setRTS false, .setDTR true,
       .setDTR false] := by
  unfold ESP32Device.reset
  rw [hopen]
  cases cap <;> exact ⟨rfl, rfl, rfl, rfl⟩

theorem reset_sequence_order_witness :
    let d : ESP32Device := { serial := some { is_open := true }, openFlag := true, boot_log := ["old"] }
    (d.reset 50 false []).2.1 = true ∧
    (d.reset 50 false []).2.2 =
      [SerialEv.clearBootLog, .flushInput, .setRTS true, .setDTR false,
       .sleepMs 100, .setRTS false, .setDTR true, .sleepMs 100, .setDTR false] ++
      (if false then [SerialEv.captureLog (50 + 200)] else [SerialEv.sleepMs (50 * 10)]) ∧
    (d.reset 50 false []).1.boot_log = (if false then (capture [] (50 + 200)).log else []) ∧
    lineTransitions (d.reset 50 false []).2.2 =
      [SerialEv.setRTS true, .setDTR false, .setRTS false, .setDTR true,
       .setDTR false] :=
  reset_sequence_order
    { serial := some { is_open := true }, openFlag := true, boot_log := ["old"] }
    50 false [] (by decide)

/-! ## Device session: adaptive read lemmas -/

theorem readGo_ge (sched : List String) :
    ∀ (fuel t : Nat) (acc : List Char), t ≤ (readGo sched fuel t acc).2 := by
  intro fuel
  induction fuel with
  | zero => intro t acc; exact Nat.le_refl t
  | succ fl ih =>
    intro t acc
    unfold readGo
    by_cases hc : (chunkAt sched t).isEmpty
    · rw [if_pos hc]
      by_cases ha : acc.isEmpty
      · rw [if_pos ha]
        exact Nat.le_trans (Nat.le_succ t) (ih (t + 1) acc)
      · rw [if_neg ha]
    · rw [if_neg hc]
      exact Nat.le_trans (Nat.le_succ t) (ih (t + 1) (acc ++ chunkAt sched t))

theorem readGo_le (sched : List String) :
    ∀ (fuel t : Nat) (acc : List Char), (readGo sched fuel t acc).2 ≤ t + fuel := by
  intro fuel
  induction fuel with
  | zero => intro t acc; exact Nat.le_refl t
  | succ fl ih =>
    intro t acc
    unfold readGo
    by_cases hc : (chunkAt sched t).isEmpty
    · rw [if_pos hc]
      by_cases ha : acc.isEmpty
      · rw [if_pos ha]
        have := ih (t + 1) acc
        omega
      · rw [if_neg ha]
        omega
    · rw [if_neg hc]
      have := ih (t + 1) (acc ++ chunkAt sched t)
      omega

theorem readGo_data (sched : List String) :
    ∀ (fuel t : Nat) (acc : List Char),
      (readGo sched fuel t acc).1 =
        acc ++ ((List.range' t ((readGo sched fuel t acc).2 - t)).map
          (chunkAt sched)).flatten := by
  intro fuel
  induction fuel with
  | zero => intro t acc; simp [readGo]
  | succ fl ih =>
    intro t acc
    unfold readGo
    by_cases hc : (chunkAt sched t).isEmpty
    · rw [if_pos hc]
      by_cases ha : acc.isEmpty
      · rw [if_pos ha]
        have hge := readGo_ge sched fl (t + 1) acc
        rw [ih (t + 1) acc]
        have hlen : (readGo sched fl (t + 1) acc).2 - t =
            ((readGo sched fl (t + 1) acc).2 - (t + 1)) + 1 := by omega
        rw [hlen, List.range'_succ, List.map_cons, List.flatten_cons]
        rw [List.isEmpty_iff] at hc
        rw [hc]
        simp
      · rw [if_neg ha]
        simp
    · rw [if_neg hc]
      have hge := readGo_ge sched fl (t + 1) (acc ++ chunkAt sched t)
      rw [ih (t + 1) (acc ++ chunkAt sched t)]
      have hlen : (readGo sched fl (t + 1) (acc ++ chunkAt sched t)).2 - t =
          ((readGo sched fl (t + 1) (acc ++ chunkAt sched t)).2 - (t + 1)) + 1 := by
        omega
      rw [hlen, List.range'_succ, List.map_cons, List.flatten_cons]
      simp

theorem readGo_all_empty (sched : List String) :
    ∀ (fuel t : Nat), (∀ i, i < t + fuel → chunkAt sched i = []) →
      readGo sched fuel t [] = ([], t + fuel) := by
  intro fuel
  induction fuel with
  | zero => intro t _; simp [readGo]
  | succ fl ih =>
    intro t h
    unfold readGo
    rw [if_pos (by rw [List.isEmpty_iff]; exact h t (by omega))]
    have hnil : ([] : List Char).isEmpty = true := rfl
    rw [if_pos hnil]
    rw [ih (t + 1) (fun i hi => h i (by omega))]
    refine congrArg _ (by omega)

theorem readGo_early (sched : List String) :
    ∀ (fuel t : Nat) (acc : List Char) (j : Nat), acc ≠ [] → t ≤ j →
      chunkAt sched j = [] → (readGo sched fuel t acc).2 ≤ j := by
  intro fuel
  induction fuel with
  | zero =>
    intro t acc j _ htj _
    simpa [readGo] using htj
  | succ fl ih =>
    intro t acc j hacc htj hj
    unfold readGo
    by_cases hc : (chunkAt sched t).isEmpty
    · rw [if_pos hc, if_neg (by simpa using hacc)]
      exact htj
    · rw [if_neg hc]
      have htne : t ≠ j := by
        intro he
        rw [he, hj] at hc
        simp at hc
      exact ih (t + 1) (acc ++ chunkAt sched t) j (by simp [hacc])
        (by omega) hj

theorem readGo_stop_after_data (sched : List String) :
    ∀ (fuel t : Nat) (acc : List Char) (i j : Nat), t ≤ i → i < j →
      chunkAt sched i ≠ [] → chunkAt sched j = [] →
      (readGo sched fuel t acc).2 ≤ j := by
  intro fuel
  induction fuel with
  | zero =>
    intro t acc i j hti hij _ _
    simp only [readGo]
    omega
  | succ fl ih =>
    intro t acc i j hti hij hi hj
    unfold readGo
    by_cases hc : (chunkAt sched t).isEmpty
    · rw [if_pos hc]
      have htne : t ≠ i := by
        intro he
        rw [List.isEmpty_iff] at hc
        rw [he] at hc
        exact hi hc
      by_cases ha : acc.isEmpty
      · rw [if_pos ha]
        exact ih (t + 1) acc i j (by omega) hij hi hj
      · rw [if_neg ha]
        omega
    · rw [if_neg hc]
      have hcne : chunkAt sched t ≠ [] := by simpa [List.isEmpty_iff] using hc
      exact readGo_early sched fl (t + 1) (acc ++ chunkAt sched t) j
        (by simp [hcne]) (by omega) hj

/-- C9: the adaptive read never runs past the timeout; it returns exactly the
bytes that arrived before it stopped, in order; if no byte ever arrives it
waits out the full timeout and returns empty; and once at least one byte has
arrived, it returns at the first idle poll, not at the timeout.  ESP32Device
read runs this loop on an open session. -/
theorem adaptive_read_spec (sched : List String) (T : Nat) :
    (readGo sched T 0 []).2 ≤ T ∧
    (readGo sched T 0 []).1 =
      ((List.range (readGo sched T 0 []).2).map (chunkAt sched)).flatten ∧
    ((∀ i, i < T → chunkAt sched i = []) →
      readGo sched T 0 [] = ([], T)) ∧
    (∀ i j, i < j → chunkAt sched i ≠ [] → chunkAt sched j = [] →
      (readGo sched T 0 []).2 ≤ j) ∧
    (∀ d : ESP32Device, d.is_open = true →
      d.read sched T = .ok (readGo sched T 0 [])) := by
  refine ⟨by simpa using readGo_le sched T 0 [], ?_, ?_, ?_, ?_⟩
  · have := readGo_data sched T 0 []
    simpa [List.range_eq_range'] using this
  · intro h
    simpa using readGo_all_empty sched T 0 (by simpa using h)
  · intro i j hij hi hj
    exact readGo_stop_after_data sched T 0 [] i j (Nat.zero_le i) hij hi hj
  · intro d hopen
    unfold ESP32Device.read
    rw [hopen]
    rfl

theorem adaptive_read_spec_witness :
    (readGo ["ab", "cd", "", "ef"] 100 0 []).2 ≤ 2 ∧
    readGo [] 10 0 [] = ([], 10) :=
  ⟨(adaptive_read_spec ["ab", "cd", "", "ef"] 100).2.2.2.1 0 2 (by decide)
      (by decide) (by decide),
   (adaptive_read_spec [] 10).2.2.1 (fun i _ => by
      simp [chunkAt])⟩

/-! ## Boot capture: structure of splitFirstNL and completeLines -/

theorem splitFirstNL_none_iff : ∀ {b : List Char},
    splitFirstNL b = none ↔ '\n' ∉ b := by
  intro b
  induction b with
  | nil => simp [splitFirstNL]
  | cons c cs ih =>
    simp only [splitFirstNL]
    by_cases hc : c = '\n'
    · rw [if_pos hc]
      simp [hc]
    · rw [if_neg hc]
      cases h : splitFirstNL cs with
      | none =>
        have hcs := ih.mp h
        refine ⟨fun _ hmem => ?_, fun _ => rfl⟩
        rcases List.mem_cons.mp hmem with he | he
        · exact hc he.symm
        · exact hcs he
      | some p =>
        obtain ⟨l, r⟩ := p
        have hcs : '\n' ∈ cs := by
          by_contra hn
          rw [ih.mpr hn] at h
          cases h
        simp [List.mem_cons, hcs]

theorem splitFirstNL_eq : ∀ {b l r : List Char},
    splitFirstNL b = some (l, r) → b = l ++ '\n' :: r ∧ '\n' ∉ l := by
  intro b
  induction b with
  | nil => intro l r h; cases h
  | cons c cs ih =>
    intro l r h
    simp only [splitFirstNL] at h
    by_cases hc : c = '\n'
    · rw [if_pos hc] at h
      cases h
      exact ⟨by rw [hc]; rfl, by simp⟩
    · rw [if_neg hc] at h
      cases hm : splitFirstNL cs with
      | none => rw [hm] at h; cases h
      | some p =>
        obtain ⟨l', r'⟩ := p
        rw [hm] at h
        cases h
        obtain ⟨he, hn⟩ := ih hm
        constructor
        · rw [List.cons_append, ← he]
        · intro hmem
          rcases List.mem_cons.mp hmem with he | he
          · exact hc he.symm
          · exact hn he

theorem splitFirstNL_append {l : List Char} (h : '\n' ∉ l) (z : List Char) :
    splitFirstNL (l ++ '\n' :: z) = some (l, z) := by
  induction l with
  | nil => simp [splitFirstNL]
  | cons c cl ih =>
    have hc : c ≠ '\n' := fun he => h (by rw [he]; exact List.mem_cons_self _ _)
    rw [List.cons_append]
    simp only [splitFirstNL]
    rw [if_neg hc, ih (fun hx => h (List.mem_cons_of_mem c hx))]

theorem completeLinesAux_congr : ∀ (f1 f2 : Nat) (cs : List Char),
    cs.length ≤ f1 → cs.length ≤ f2 →
    completeLinesAux f1 cs = completeLinesAux f2 cs := by
  intro f1
  induction f1 with
  | zero =>
    intro f2 cs h1 _
    have : cs = [] := List.length_eq_zero.mp (Nat.le_zero.mp h1)
    subst this
    cases f2 with
    | zero => rfl
    | succ fl => rfl
  | succ fl ih =>
    intro f2 cs h1 h2
    cases f2 with
    | zero =>
      have : cs = [] := List.length_eq_zero.mp (Nat.le_zero.mp h2)
      subst this
      rfl
    | succ fl2 =>
      simp only [completeLinesAux]
      cases hm : splitFirstNL cs with
      | none => rfl
      | some p =>
        obtain ⟨l, r⟩ := p
        have hr := splitFirstNL_length hm
        show l :: completeLinesAux fl r = l :: completeLinesAux fl2 r
        rw [ih fl2 r (by omega) (by omega)]

theorem completeLines_none {cs : List Char} (h : splitFirstNL cs = none) :
    completeLines cs = [] := by
  unfold completeLines
  cases hl : cs.length with
  | zero => rfl
  | succ n =>
    simp only [completeLinesAux]
    rw [h]

theorem completeLines_cons {cs l r : List Char} (h : splitFirstNL cs = some (l, r)) :
    completeLines cs = l :: completeLines r := by
  unfold completeLines
  cases hl : cs.length with
  | zero =>
    have : cs = [] := List.length_eq_zero.mp hl
    subst this
    cases h
  | succ n =>
    simp only [completeLinesAux]
    rw [h]
    have hr := splitFirstNL_length h
    show l :: completeLinesAux n r = l :: completeLines r
    unfold completeLines
    rw [completeLinesAux_congr n r.length r (by omega) (by omega)]

theorem completeLines_no_nl {cs : List Char} (h : '\n' ∉ cs) :
    completeLines cs = [] :=
  completeLines_none (splitFirstNL_none_iff.mpr h)

theorem closedText_append {a b : List Char} (ha : closedText a)
    (hb : closedText b) : closedText (a ++ b) := by
  rcases hb with hb | ⟨p, hp⟩
  · rw [hb, List.append_nil]; exact ha
  · right
    exact ⟨a ++ p, by rw [hp, List.append_assoc]⟩

theorem closed_of_splitFirstNL : ∀ {D l r : List Char},
    splitFirstNL D = some (l, r) → closedText D → closedText r := by
  intro D
  induction D with
  | nil => intro l r h; cases h
  | cons c cs ih =>
    intro l r h hcl
    simp only [splitFirstNL] at h
    rcases hcl with hcl | ⟨p, hp⟩
    · cases hcl
    by_cases hc : c = '\n'
    · rw [if_pos hc] at h
      cases h
      cases p with
      | nil =>
        simp at hp
        left
        exact hp.2
      | cons x xs =>
        rw [List.cons_append] at hp
        right
        exact ⟨xs, (List.cons.injEq _ _ _ _).mp hp |>.2⟩
    · rw [if_neg hc] at h
      cases hm : splitFirstNL cs with
      | none => rw [hm] at h; cases h
      | some q =>
        obtain ⟨l', r'⟩ := q
        rw [hm] at h
        cases h
        refine ih hm ?_
        cases p with
        | nil =>
          simp at hp
          exact absurd hp.1 hc
        | cons x xs =>
          rw [List.cons_append] at hp
          right
          exact ⟨xs, (List.cons.injEq _ _ _ _).mp hp |>.2⟩

theorem completeLines_append_closed_aux : ∀ (n : Nat) (D : List Char),
    D.length ≤ n → closedText D → ∀ X,
    completeLines (D ++ X) = completeLines D ++ completeLines X := by
  intro n
  induction n with
  | zero =>
    intro D hD _ X
    have : D = [] := List.length_eq_zero.mp (Nat.le_zero.mp hD)
    subst this
    simp [completeLines, completeLinesAux]
  | succ n ih =>
    intro D hD hcl X
    rcases hcl with hnil | ⟨p, hp⟩
    · subst hnil
      simp [completeLines, completeLinesAux]
    · have hmem : '\n' ∈ D := by rw [hp]; simp
      cases hm : splitFirstNL D with
      | none => exact absurd (splitFirstNL_none_iff.mp hm) (by simp [hmem])
      | some q =>
        obtain ⟨l, r⟩ := q
        obtain ⟨he, hl⟩ := splitFirstNL_eq hm
        have hrcl : closedText r := closed_of_splitFirstNL hm (Or.inr ⟨p, hp⟩)
        have hlen : r.length < D.length := splitFirstNL_length hm
        have hDX : D ++ X = l ++ '\n' :: (r ++ X) := by
          rw [he, List.append_assoc, List.cons_append]
        rw [hDX]
        rw [completeLines_cons (splitFirstNL_append hl (r ++ X))]
        rw [completeLines_cons hm]
        rw [ih r (by omega) hrcl X]
        rfl

theorem completeLines_append_closed {D : List Char} (hcl : closedText D)
    (X : List Char) :
    completeLines (D ++ X) = completeLines D ++ completeLines X :=
  completeLines_append_closed_aux D.length D (Nat.le_refl _) hcl X

/-! ## Boot capture: goodTrunc and processBuf -/

theorem goodTrunc_cons_empty {l : List Char} {ls : List (List Char)}
    (hs : (stripAll l).isEmpty) : goodTrunc (l :: ls) = goodTrunc ls := by
  simp only [goodTrunc]
  rw [if_pos hs]

theorem goodTrunc_cons_marker {l : List Char} {ls : List (List Char)}
    (hs : ¬ (stripAll l).isEmpty) (hmk : isMarkerLine (stripAll l)) :
    goodTrunc (l :: ls) = ([String.mk (stripAll l)], true) := by
  simp only [goodTrunc]
  rw [if_neg hs, if_pos hmk]

theorem goodTrunc_cons_plain {l : List Char} {ls : List (List Char)}
    (hs : ¬ (stripAll l).isEmpty) (hmk : ¬ isMarkerLine (stripAll l)) :
    goodTrunc (l :: ls) =
      (String.mk (stripAll l) :: (goodTrunc ls).1, (goodTrunc ls).2) := by
  simp only [goodTrunc]
  rw [if_neg hs, if_neg hmk]

theorem goodTrunc_append : ∀ (L1 L2 : List (List Char)),
    (goodTrunc L1).2 = false →
    goodTrunc (L1 ++ L2) =
      ((goodTrunc L1).1 ++ (goodTrunc L2).1, (goodTrunc L2).2) := by
  intro L1
  induction L1 with
  | nil => intro L2 _; rfl
  | cons l ls ih =>
    intro L2 h
    rw [List.cons_append]
    by_cases hs : (stripAll l).isEmpty
    · rw [goodTrunc_cons_empty hs] at h
      rw [goodTrunc_cons_empty hs, goodTrunc_cons_empty hs]
      exact ih L2 h
    · by_cases hmk : isMarkerLine (stripAll l)
      · rw [goodTrunc_cons_marker hs hmk] at h
        cases h
      · rw [goodTrunc_cons_plain hs hmk] at h
        rw [goodTrunc_cons_plain hs hmk, goodTrunc_cons_plain hs hmk, ih L2 h]
        simp

theorem processBufAux_congr : ∀ (f1 f2 : Nat) (buf : List Char) (log : List String),
    buf.length ≤ f1 → buf.length ≤ f2 →
    processBufAux f1 buf log = processBufAux f2 buf log := by
  intro f1
  induction f1 with
  | zero =>
    intro f2 buf log h1 _
    have : buf = [] := List.length_eq_zero.mp (Nat.le_zero.mp h1)
    subst this
    cases f2 with
    | zero => rfl
    | succ fl => rfl
  | succ fl ih =>
    intro f2 buf log h1 h2
    cases f2 with
    | zero =>
      have : buf = [] := List.length_eq_zero.mp (Nat.le_zero.mp h2)
      subst this
      rfl
    | succ fl2 =>
      simp only [processBufAux]
      cases hm : splitFirstNL buf with
      | none => rfl
      | some p =>
        obtain ⟨line, rest⟩ := p
        have hr := splitFirstNL_length hm
        show (if (stripAll line).isEmpty then processBufAux fl rest log
              else if isMarkerLine (stripAll line) then
                (rest, log ++ [String.mk (stripAll line)], true)
              else processBufAux fl rest (log ++ [String.mk (stripAll line)])) =
             (if (stripAll line).isEmpty then processBufAux fl2 rest log
              else if isMarkerLine (stripAll line) then
                (rest, log ++ [String.mk (stripAll line)], true)
              else processBufAux fl2 rest (log ++ [String.mk (stripAll line)]))
        by_cases hs : (stripAll line).isEmpty
        · rw [if_pos hs, if_pos hs, ih fl2 rest log (by omega) (by omega)]
        · rw [if_neg hs, if_neg hs]
          by_cases hmk : isMarkerLine (stripAll line)
          · rw [if_pos hmk, if_pos hmk]
          · rw [if_neg hmk, if_neg hmk,
              ih fl2 rest (log ++ [String.mk (stripAll line)]) (by omega) (by omega)]

theorem processBuf_none {buf : List Char} (log : List String)
    (h : splitFirstNL buf = none) : processBuf buf log = (buf, log, false) := by
  unfold processBuf
  cases hl : buf.length with
  | zero => rfl
  | succ n =>
    simp only [processBufAux]
    rw [h]

theorem processBuf_cons {buf line rest : List Char} (log : List String)
    (h : splitFirstNL buf = some (line, rest)) :
    processBuf buf log =
      (if (stripAll line).isEmpty then processBuf rest log
       else if isMarkerLine (stripAll line) then
         (rest, log ++ [String.mk (stripAll line)], true)
       else processBuf rest (log ++ [String.mk (stripAll line)])) := by
  unfold processBuf
  cases hl : buf.length with
  | zero =>
    have : buf = [] := List.length_eq_zero.mp hl
    subst this
    cases h
  | succ n =>
    simp only [processBufAux]
    rw [h]
    have hr := splitFirstNL_length h
    show (if (stripAll line).isEmpty then processBufAux n rest log
          else if isMarkerLine (stripAll line) then
            (rest, log ++ [String.mk (stripAll line)], true)
          else processBufAux n rest (log ++ [String.mk (stripAll line)])) = _
    by_cases hs : (stripAll line).isEmpty
    · rw [if_pos hs, if_pos hs,
        processBufAux_congr n rest.length rest log (by omega) (by omega)]
    · rw [if_neg hs, if_neg hs]
      by_cases hmk : isMarkerLine (stripAll line)
      · rw [if_pos hmk, if_pos hmk]
      · rw [if_neg hmk, if_neg hmk,
          processBufAux_congr n rest.length rest _ (by omega) (by omega)]

/-- The inner line loop equals the declarative description goodTrunc applied
to the complete lines of the buffer; when no marker is hit, the remaining
buffer is the newline-free tail and the consumed part is closed. -/
theorem processBuf_spec : ∀ (n : Nat) (buf : List Char) (log : List String),
    buf.length ≤ n →
    (processBuf buf log).2.2 = (goodTrunc (completeLines buf)).2 ∧
    (processBuf buf log).2.1 = log ++ (goodTrunc (completeLines buf)).1 ∧
    ((processBuf buf log).2.2 = false →
      splitFirstNL (processBuf buf log).1 = none ∧
      ∃ D, buf = D ++ (processBuf buf log).1 ∧ closedText D ∧
        completeLines D = completeLines buf) := by
  intro n
  induction n with
  | zero =>
    intro buf log h
    have : buf = [] := List.length_eq_zero.mp (Nat.le_zero.mp h)
    subst this
    have h0 : processBuf [] log = ([], log, false) := rfl
    have h1 : completeLines ([] : List Char) = [] := rfl
    rw [h0, h1]
    refine ⟨rfl, by simp [goodTrunc], ?_⟩
    intro _
    exact ⟨rfl, [], rfl, Or.inl rfl, rfl⟩
  | succ n ih =>
    intro buf log h
    cases hm : splitFirstNL buf with
    | none =>
      rw [processBuf_none log hm, completeLines_none hm]
      refine ⟨rfl, by simp [goodTrunc], ?_⟩
      intro _
      refine ⟨hm, [], rfl, Or.inl rfl, rfl⟩
    | some p =>
      obtain ⟨line, rest⟩ := p
      obtain ⟨hbe, hnl⟩ := splitFirstNL_eq hm
      have hlen : rest.length < buf.length := splitFirstNL_length hm
      rw [processBuf_cons log hm, completeLines_cons hm]
      by_cases hs : (stripAll line).isEmpty
      · rw [if_pos hs]
        simp only [goodTrunc, if_pos hs]
        obtain ⟨c1, c2, c3⟩ := ih rest log (by omega)
        refine ⟨c1, c2, ?_⟩
        intro hf
        obtain ⟨hnone, D, hD, hcl, hlines⟩ := c3 hf
        refine ⟨hnone, (line ++ ['\n']) ++ D, ?_, ?_, ?_⟩
        · rw [hbe, List.append_assoc, ← hD]
          simp
        · exact closedText_append (Or.inr ⟨line, rfl⟩) hcl
        · have h1 : completeLines ((line ++ ['\n']) ++ D) =
              completeLines (line ++ ['\n']) ++ completeLines D :=
            completeLines_append_closed (Or.inr ⟨line, rfl⟩) D
          have h2 : completeLines (line ++ ['\n']) = [line] := by
            rw [completeLines_cons (splitFirstNL_append hnl [])]
            simp [completeLines, completeLinesAux]
          rw [h1, h2, hlines]
          rfl
      · rw [if_neg hs]
        by_cases hmk : isMarkerLine (stripAll line)
        · rw [if_pos hmk]
          simp only [goodTrunc, if_neg hs, if_pos hmk]
          refine ⟨by simp, by simp, fun hf => ?_⟩
          simp at hf
        · rw [if_neg hmk]
          simp only [goodTrunc, if_neg hs, if_neg hmk]
          obtain ⟨c1, c2, c3⟩ := ih rest (log ++ [String.mk (stripAll line)]) (by omega)
          refine ⟨c1, by rw [c2]; simp, ?_⟩
          intro hf
          obtain ⟨hnone, D, hD, hcl, hlines⟩ := c3 hf
          refine ⟨hnone, (line ++ ['\n']) ++ D, ?_, ?_, ?_⟩
          · rw [hbe, List.append_assoc, ← hD]
            simp
          · exact closedText_append (Or.inr ⟨line, rfl⟩) hcl
          · have h1 : completeLines ((line ++ ['\n']) ++ D) =
                completeLines (line ++ ['\n']) ++ completeLines D :=
              completeLines_append_closed (Or.inr ⟨line, rfl⟩) D
            have h2 : completeLines (line ++ ['\n']) = [line] := by
              rw [completeLines_cons (splitFirstNL_append hnl [])]
              simp [completeLines, completeLinesAux]
            rw [h1, h2, hlines]
            rfl

/-! ## Boot capture: the main loop characterisation -/

theorem consumedText_succ (sched : List String) (n : Nat) :
    consumedText sched (n + 1) = consumedText sched n ++ chunkAt sched n := by
  simp [consumedText, List.range_succ]

theorem capGo_spec (sched : List String) : ∀ (fuel t lastData : Nat)
    (buf : List Char) (log : List String),
    lastData ≤ t →
    (∀ j, lastData < j → j < t → chunkAt sched j = []) →
    splitFirstNL buf = none →
    (∃ D, consumedText sched t = D ++ buf ∧ closedText D ∧
      log = (goodTrunc (completeLines D)).1 ∧
      (goodTrunc (completeLines D)).2 = false) →
    (capGo sched fuel t lastData buf log).log =
      (goodTrunc (completeLines (consumedText sched
        (capGo sched fuel t lastData buf log).nRead))).1 ∧
    ((capGo sched fuel t lastData buf log).reason = .marker ↔
      (goodTrunc (completeLines (consumedText sched
        (capGo sched fuel t lastData buf log).nRead))).2 = true) ∧
    ((capGo sched fuel t lastData buf log).reason = .marker →
      1 ≤ (capGo sched fuel t lastData buf log).nRead ∧
      (capGo sched fuel t lastData buf log).tEnd =
        ((capGo sched fuel t lastData buf log).nRead - 1) + 20 ∧
      (capGo sched fuel t lastData buf log).nRead - 1 < t + fuel) ∧
    ((capGo sched fuel t lastData buf log).reason = .idle →
      (capGo sched fuel t lastData buf log).nRead =
        (capGo sched fuel t lastData buf log).tEnd ∧
      (capGo sched fuel t lastData buf log).tEnd < t + fuel ∧
      150 < (capGo sched fuel t lastData buf log).tEnd ∧
      ∀ j, (capGo sched fuel t lastData buf log).tEnd - 150 ≤ j →
        j ≤ (capGo sched fuel t lastData buf log).tEnd →
        chunkAt sched j = []) ∧
    ((capGo sched fuel t lastData buf log).reason = .timeout →
      (capGo sched fuel t lastData buf log).tEnd = t + fuel ∧
      (capGo sched fuel t lastData buf log).nRead = t + fuel) ∧
    (capGo sched fuel t lastData buf log).tEnd ≤ t + fuel + 19 := by
  intro fuel
  induction fuel with
  | zero =>
    intro t lastData buf log _ _ hbuf ⟨D, hD, hcl, hlog, hg2⟩
    have hlines : completeLines (consumedText sched t) = completeLines D := by
      rw [hD, completeLines_append_closed hcl, completeLines_none hbuf,
        List.append_nil]
    refine ⟨?_, ?_, ?_, ?_, ?_, ?_⟩
    · show log = (goodTrunc (completeLines (consumedText sched t))).1
      rw [hlines]
      exact hlog
    · show StopReason.timeout = .marker ↔
        (goodTrunc (completeLines (consumedText sched t))).2 = true
      constructor
      · intro h
        exact nomatch h
      · intro h
        rw [hlines, hg2] at h
        exact (Bool.false_ne_true h).elim
    · show StopReason.timeout = .marker → _
      intro h
      exact nomatch h
    · show StopReason.timeout = .idle → _
      intro h
      exact nomatch h
    · show StopReason.timeout = .timeout → t = t + 0 ∧ t = t + 0
      intro _
      omega
    · show t ≤ t + 0 + 19
      omega
  | succ fl ih =>
    intro t lastData buf log hld hemp hbuf hinv
    obtain ⟨D, hD, hcl, hlog, hg2⟩ := hinv
    have hlines : completeLines (consumedText sched t) = completeLines D := by
      rw [hD, completeLines_append_closed hcl, completeLines_none hbuf,
        List.append_nil]
    by_cases hc : (chunkAt sched t).isEmpty
    · by_cases hidle : t - lastData > 150
      · -- idle window fired
        have hcap : capGo sched (fl + 1) t lastData buf log =
            { log := log, reason := .idle, tEnd := t, nRead := t } := by
          simp only [capGo]
          rw [if_pos hc, if_pos hidle]
        rw [hcap]
        refine ⟨?_, ?_, ?_, ?_, ?_, ?_⟩
        · show log = (goodTrunc (completeLines (consumedText sched t))).1
          rw [hlines]
          exact hlog
        · show StopReason.idle = .marker ↔
            (goodTrunc (completeLines (consumedText sched t))).2 = true
          constructor
          · intro h
            exact nomatch h
          · intro h
            rw [hlines, hg2] at h
            exact (Bool.false_ne_true h).elim
        · show StopReason.idle = .marker → _
          intro h
          exact nomatch h
        · show StopReason.idle = .idle → t = t ∧ t < t + (fl + 1) ∧ 150 < t ∧
            ∀ j, t - 150 ≤ j → j ≤ t → chunkAt sched j = []
          intro _
          refine ⟨rfl, by omega, by omega, ?_⟩
          intro j hj1 hj2
          rcases Nat.lt_or_ge j t with hjt | hjt
          · exact hemp j (by omega) hjt
          · have hjeq : j = t := by omega
            rw [hjeq]
            exact List.isEmpty_iff.mp hc
        · show StopReason.idle = .timeout → _
          intro h
          exact nomatch h
        · show t ≤ t + (fl + 1) + 19
          omega
      · -- quiet tick, keep polling
        have hcap : capGo sched (fl + 1) t lastData buf log =
            capGo sched fl (t + 1) lastData buf log := by
          simp only [capGo]
          rw [if_pos hc, if_neg hidle]
        rw [hcap]
        have harith : t + (fl + 1) = (t + 1) + fl := by omega
        rw [harith]
        refine ih (t + 1) lastData buf log (by omega) ?_ hbuf ⟨D, ?_, hcl, hlog, hg2⟩
        · intro j hj1 hj2
          rcases Nat.lt_or_ge j t with hjt | hjt
          · exact hemp j hj1 hjt
          · have hjeq : j = t := by omega
            rw [hjeq]
            exact List.isEmpty_iff.mp hc
        · rw [consumedText_succ, List.isEmpty_iff.mp hc, List.append_nil, hD]
    · by_cases hmk : (processBuf (buf ++ chunkAt sched t) log).2.2
      · -- marker line just appended: grace then stop
        have hcap : capGo sched (fl + 1) t lastData buf log =
            { log := (processBuf (buf ++ chunkAt sched t) log).2.1,
              reason := .marker, tEnd := t + 20, nRead := t + 1 } := by
          simp only [capGo]
          rw [if_neg hc, if_pos hmk]
        rw [hcap]
        obtain ⟨c1, c2, _⟩ := processBuf_spec (buf ++ chunkAt sched t).length
          (buf ++ chunkAt sched t) log (Nat.le_refl _)
        have hcons : consumedText sched (t + 1) =
            D ++ (buf ++ chunkAt sched t) := by
          rw [consumedText_succ, hD, List.append_assoc]
        have hgood : goodTrunc (completeLines (consumedText sched (t + 1))) =
            ((goodTrunc (completeLines D)).1 ++
              (goodTrunc (completeLines (buf ++ chunkAt sched t))).1,
             (goodTrunc (completeLines (buf ++ chunkAt sched t))).2) := by
          rw [hcons, completeLines_append_closed hcl]
          exact goodTrunc_append _ _ hg2
        refine ⟨?_, ?_, ?_, ?_, ?_, ?_⟩
        · show (processBuf (buf ++ chunkAt sched t) log).2.1 =
            (goodTrunc (completeLines (consumedText sched (t + 1)))).1
          rw [hgood, c2, hlog]
        · show StopReason.marker = .marker ↔
            (goodTrunc (completeLines (consumedText sched (t + 1)))).2 = true
          constructor
          · intro _
            rw [hgood]
            show (goodTrunc (completeLines (buf ++ chunkAt sched t))).2 = true
            rw [← c1]
            exact hmk
          · intro _
            rfl
        · show StopReason.marker = .marker →
            1 ≤ t + 1 ∧ t + 20 = (t + 1 - 1) + 20 ∧ t + 1 - 1 < t + (fl + 1)
          intro _
          omega
        · show StopReason.marker = .idle → _
          intro h
          exact nomatch h
        · show StopReason.marker = .timeout → _
          intro h
          exact nomatch h
        · show t + 20 ≤ t + (fl + 1) + 19
          omega
      · -- lines consumed, no marker: keep polling with trimmed buffer
        have hcap : capGo sched (fl + 1) t lastData buf log =
            capGo sched fl (t + 1) t
              (processBuf (buf ++ chunkAt sched t) log).1
              (processBuf (buf ++ chunkAt sched t) log).2.1 := by
          simp only [capGo]
          rw [if_neg hc, if_neg hmk]
        rw [hcap]
        obtain ⟨c1, c2, c3⟩ := processBuf_spec (buf ++ chunkAt sched t).length
          (buf ++ chunkAt sched t) log (Nat.le_refl _)
        have hmkf : (processBuf (buf ++ chunkAt sched t) log).2.2 = false := by
          revert hmk
          cases (processBuf (buf ++ chunkAt sched t) log).2.2 <;> simp
        obtain ⟨hnone', D2, hD2, hcl2, hlines2⟩ := c3 hmkf
        have harith : t + (fl + 1) = (t + 1) + fl := by omega
        rw [harith]
        refine ih (t + 1) t _ _ (by omega)
          (fun j hj1 hj2 => absurd hj2 (by omega)) hnone'
          ⟨D ++ D2, ?_, closedText_append hcl hcl2, ?_, ?_⟩
        · calc consumedText sched (t + 1)
              = consumedText sched t ++ chunkAt sched t := consumedText_succ sched t
            _ = (D ++ buf) ++ chunkAt sched t := by rw [hD]
            _ = D ++ (buf ++ chunkAt sched t) := List.append_assoc D buf _
            _ = D ++ (D2 ++ (processBuf (buf ++ chunkAt sched t) log).1) :=
                congrArg (fun x => D ++ x) hD2
            _ = (D ++ D2) ++ (processBuf (buf ++ chunkAt sched t) log).1 :=
                (List.append_assoc D D2 _).symm
        · rw [completeLines_append_closed hcl, goodTrunc_append _ _ hg2,
            hlines2]
          show (processBuf (buf ++ chunkAt sched t) log).2.1 =
            (goodTrunc (completeLines D)).1 ++
              (goodTrunc (completeLines (buf ++ chunkAt sched t))).1
          rw [c2, hlog]
        · rw [completeLines_append_closed hcl, goodTrunc_append _ _ hg2,
            hlines2]
          show (goodTrunc (completeLines (buf ++ chunkAt sched t))).2 = false
          rw [← c1]
          exact hmkf

/-- C7: boot-log capture is a race with three terminating conditions,
whichever fires first, for the absolute timeout wait_time + 2.0 s
(wait ticks + 200): the log always equals the declarative description
(every complete line received before stopping, stripped of surrounding
whitespace including any trailing carriage return, appended when non-empty,
in arrival order, truncated inclusively at the first readiness-marker line);
the run stops with reason marker exactly when a marker line arrived in the
consumed input, and then 200 ms (20 ticks) after the marker tick; it stops
with reason idle only strictly before the absolute timeout after more than
1.5 s (151 consecutive ticks) without data; otherwise it stops at the
absolute timeout; and it never runs past the timeout plus the grace
period. -/
theorem boot_capture_race (sched : List String) (wait : Nat) :
    (capture sched (wait + 200)).log =
      (goodTrunc (completeLines (consumedText sched
        (capture sched (wait + 200)).nRead))).1 ∧
    ((capture sched (wait + 200)).reason = .marker ↔
      (goodTrunc (completeLines (consumedText sched
        (capture sched (wait + 200)).nRead))).2 = true) ∧
    ((capture sched (wait + 200)).reason = .marker →
      1 ≤ (capture sched (wait + 200)).nRead ∧
      (capture sched (wait + 200)).tEnd =
        ((capture sched (wait + 200)).nRead - 1) + 20 ∧
      (capture sched (wait + 200)).nRead - 1 < wait + 200) ∧
    ((capture sched (wait + 200)).reason = .idle →
      (capture sched (wait + 200)).nRead = (capture sched (wait + 200)).tEnd ∧
      (capture sched (wait + 200)).tEnd < wait + 200 ∧
      150 < (capture sched (wait + 200)).tEnd ∧
      ∀ j, (capture sched (wait + 200)).tEnd - 150 ≤ j →
        j ≤ (capture sched (wait + 200)).tEnd → chunkAt sched j = []) ∧
    ((capture sched (wait + 200)).reason = .timeout →
      (capture sched (wait + 200)).tEnd = wait + 200 ∧
      (capture sched (wait + 200)).nRead = wait + 200) ∧
    (capture sched (wait + 200)).tEnd ≤ wait + 200 + 19 := by
  have h := capGo_spec sched (wait + 200) 0 0 [] [] (Nat.le_refl 0)
    (fun j hj1 hj2 => absurd hj2 (by omega)) rfl
    ⟨[], rfl, Or.inl rfl, rfl, rfl⟩
  simpa [capture] using h

theorem boot_capture_race_witness :
    (capture ["boot line\n", "", "Ready>\n"] (50 + 200)).reason = .marker :=
  (boot_capture_race ["boot line\n", "", "Ready>\n"] 50).2.1.mpr (by decide)
